import Mathlib

/-!
Verification of the conversation-session and resource-budget orchestration
subsystem of openclaw-lite.

The TypeScript sources are shallowly embedded: pure functions become Lean
functions, the module-level mutable state of `session.ts` becomes an explicit
`SessionStore` record threaded through the operations, and the external
collaborators (the filesystem, `JSON.parse`/`JSON.stringify`, `Date.now()`,
the LLM, `Math.random()`) become explicit parameters.  JavaScript numbers
used as ratios/mood values are modelled as rationals; array indices and
counts as naturals.
-/

set_option maxRecDepth 4096

/-! ## Basic data model (`config.ts` types used by `session.ts`) -/

/-- Message role, `"user" | "assistant"` in the source. -/
inductive Role where
  | user : Role
  | assistant : Role
deriving DecidableEq, Repr

/-- `{role, content, timestamp}` entries of `Session.messages`. -/
structure ChatMessage where
  role : Role
  content : String
  timestamp : Nat
deriving DecidableEq, Repr

/-- The `Session` record: `{messages, lastActivity, conversationSummary?}`.
The optional field is `none` when absent. -/
structure Session where
  messages : List ChatMessage
  lastActivity : Nat
  conversationSummary : Option String
deriving DecidableEq, Repr

/-- JavaScript `arr.slice(-n)` for a natural `n`.  For `n = 0` the argument
is `-0 = 0`, so the WHOLE array is returned (not the empty suffix); for
`n > 0` it is the suffix of length `min n arr.length`. -/
def jsLastSlice (l : List α) (n : Nat) : List α :=
  if n = 0 then l else l.drop (l.length - n)

/-- The `messages` transformation performed by `addToSession` in
`session.ts`: push the new message, then
`if (messages.length > maxHistory) messages = messages.slice(-maxHistory)`. -/
def addMsgTrim (maxHistory : Nat) (msgs : List ChatMessage) (m : ChatMessage) :
    List ChatMessage :=
  let l := msgs ++ [m]
  if maxHistory < l.length then jsLastSlice l maxHistory else l

/-! ## Budget governor (`getBudgetAwareParams` in `lizard-brain.ts`) -/

/-- The configured knobs read by `getBudgetAwareParams` (`_config`). -/
structure LizardConfig where
  model : String
  maxTokens : Nat
  maxHistory : Nat
deriving DecidableEq, Repr

/-- Result type `BudgetAwareParams`. -/
structure BudgetAwareParams where
  model : String
  maxTokens : Nat
  maxHistory : Nat
  shouldBlock : Bool
deriving DecidableEq, Repr

/-- The hard-coded fallback model of the 90–100% tier. -/
def fallbackModel : String := "claude-3-haiku-20240307"

/-- `getBudgetAwareParams`, as a pure function of the usage ratio
`used / budget` (the only state it reads besides `_config`). -/
def getBudgetAwareParams (cfg : LizardConfig) (usage : ℚ) : BudgetAwareParams :=
  if 1 ≤ usage then
    ⟨cfg.model, cfg.maxTokens, cfg.maxHistory, true⟩
  else if 9/10 ≤ usage then
    ⟨fallbackModel, 500, 5, false⟩
  else if 3/4 ≤ usage then
    ⟨cfg.model, 1024, 10, false⟩
  else if 1/2 ≤ usage then
    ⟨cfg.model, cfg.maxTokens, 20, false⟩
  else
    ⟨cfg.model, cfg.maxTokens, cfg.maxHistory, false⟩

/-! ## Theorems for the budget ladder (claim C1) -/

/-- C1 (counterexample): the monotonicity part of the claim is false as
stated.  For a configuration with normal `maxTokens = 4096`, the ratio
`r1 = 0.92 < r2 = 1` has `maxTokens 500` at `r1` but `4096` at `r2`,
because the blocking tier reverts to the configured values.  So it is not
the case that `maxTokens` at `r1` is `≥` `maxTokens` at `r2` for all
`r1 < r2`. -/
theorem budgetLadder_monotone_cex :
    (92/100 : ℚ) < 1 ∧
    ¬ ((getBudgetAwareParams ⟨"claude-sonnet", 4096, 50⟩ 1).maxTokens ≤
        (getBudgetAwareParams ⟨"claude-sonnet", 4096, 50⟩ (92/100)).maxTokens) := by
  refine ⟨by norm_num, ?_⟩
  have h1 : getBudgetAwareParams ⟨"claude-sonnet", 4096, 50⟩ 1 =
      ⟨"claude-sonnet", 4096, 50, true⟩ := by
    simp [getBudgetAwareParams]
  have h2 : getBudgetAwareParams ⟨"claude-sonnet", 4096, 50⟩ (92/100) =
      ⟨fallbackModel, 500, 5, false⟩ := by
    norm_num [getBudgetAwareParams]
  rw [h1, h2]
  norm_num

/-- C1 (amended): `getBudgetAwareParams` is a pure function of the usage
ratio reproducing the ladder exactly — `shouldBlock` iff `r ≥ 1` (with the
configured model/maxTokens/maxHistory), the `[0.9,1)`, `[0.75,0.9)`,
`[0.5,0.75)` and `< 0.5` tiers as specified — and `maxTokens`/`maxHistory`
are antitone in the ratio on the non-blocking range `r < 1`, provided the
configured values are at least the reduced-tier values
(`maxTokens ≥ 1024`, `maxHistory ≥ 20`).  Global monotonicity across
`r ≥ 1` fails because the blocking tier reverts to configured values. -/
theorem budgetLadder_spec :
    (∀ (cfg : LizardConfig) (u : ℚ),
        (getBudgetAwareParams cfg u).shouldBlock = true ↔ 1 ≤ u) ∧
    (∀ (cfg : LizardConfig) (u : ℚ), 1 ≤ u →
        getBudgetAwareParams cfg u = ⟨cfg.model, cfg.maxTokens, cfg.maxHistory, true⟩) ∧
    (∀ (cfg : LizardConfig) (u : ℚ), 9/10 ≤ u → u < 1 →
        getBudgetAwareParams cfg u = ⟨fallbackModel, 500, 5, false⟩) ∧
    (∀ (cfg : LizardConfig) (u : ℚ), 3/4 ≤ u → u < 9/10 →
        getBudgetAwareParams cfg u = ⟨cfg.model, 1024, 10, false⟩) ∧
    (∀ (cfg : LizardConfig) (u : ℚ), 1/2 ≤ u → u < 3/4 →
        getBudgetAwareParams cfg u = ⟨cfg.model, cfg.maxTokens, 20, false⟩) ∧
    (∀ (cfg : LizardConfig) (u : ℚ), u < 1/2 →
        getBudgetAwareParams cfg u = ⟨cfg.model, cfg.maxTokens, cfg.maxHistory, false⟩) ∧
    (∀ cfg : LizardConfig, 1024 ≤ cfg.maxTokens → 20 ≤ cfg.maxHistory →
      ∀ u1 u2 : ℚ, u1 < u2 → u2 < 1 →
        (getBudgetAwareParams cfg u2).maxTokens ≤ (getBudgetAwareParams cfg u1).maxTokens ∧
        (getBudgetAwareParams cfg u2).maxHistory ≤ (getBudgetAwareParams cfg u1).maxHistory) := by
  refine ⟨?_, ?_, ?_, ?_, ?_, ?_, ?_⟩
  · intro cfg u
    unfold getBudgetAwareParams
    split_ifs with h1 h2 h3 h4 <;> simp_all
  · intro cfg u h
    simp [getBudgetAwareParams, h]
  · intro cfg u h1 h2
    rw [getBudgetAwareParams, if_neg (by linarith), if_pos h1]
  · intro cfg u h1 h2
    rw [getBudgetAwareParams, if_neg (by linarith), if_neg (by linarith), if_pos h1]
  · intro cfg u h1 h2
    rw [getBudgetAwareParams, if_neg (by linarith), if_neg (by linarith),
      if_neg (by linarith), if_pos h1]
  · intro cfg u h1
    rw [getBudgetAwareParams, if_neg (by linarith), if_neg (by linarith),
      if_neg (by linarith), if_neg (by linarith)]
  · intro cfg hT hH u1 u2 h12 h2
    unfold getBudgetAwareParams
    split_ifs with a1 a2 a3 a4 b1 b2 b3 b4 <;>
      first
        | (exfalso; linarith)
        | (constructor <;> simp <;> omega)

/-- C1 (witness): the amended ladder/monotonicity theorem applied at the
concrete configuration `⟨"claude-sonnet", 4096, 50⟩`, ratio `0.92` for the
fallback tier, and the pair `0.6 < 0.8` for antitonicity below 1. -/
theorem budgetLadder_spec_witness :
    getBudgetAwareParams ⟨"claude-sonnet", 4096, 50⟩ (92/100) =
      ⟨fallbackModel, 500, 5, false⟩ ∧
    (getBudgetAwareParams ⟨"claude-sonnet", 4096, 50⟩ (8/10)).maxTokens ≤
      (getBudgetAwareParams ⟨"claude-sonnet", 4096, 50⟩ (6/10)).maxTokens :=
  ⟨budgetLadder_spec.2.2.1 ⟨"claude-sonnet", 4096, 50⟩ (92/100)
      (by norm_num) (by norm_num),
    (budgetLadder_spec.2.2.2.2.2.2 ⟨"claude-sonnet", 4096, 50⟩
      (by norm_num) (by norm_num) (6/10) (8/10) (by norm_num) (by norm_num)).1⟩

/-! ## Theorems for history trimming (claim C3) -/

/-- C3 (counterexample): with configured `maxHistory = 0` the trim uses
JavaScript `slice(-0)`, which returns the whole array, so a single append
leaves 1 stored message and the bound "never exceeds `maxHistory`" fails. -/
theorem sessionTrim_zero_cex :
    ¬ (([({role := Role.user, content := "hi", timestamp := 0} : ChatMessage)].foldl
        (addMsgTrim 0) []).length ≤ 0) := by
  decide

/-- For positive `n`, `addMsgTrim n` sends the suffix invariant forward:
if the state is the `n`-suffix of the already-appended messages, appending
one more keeps it the `n`-suffix. -/
theorem addMsgTrim_step (n : Nat) (hn : 0 < n) (ms : List ChatMessage)
    (m : ChatMessage) :
    addMsgTrim n (ms.drop (ms.length - n)) m =
      (ms ++ [m]).drop (ms.length + 1 - n) := by
  unfold addMsgTrim jsLastSlice
  by_cases hlt : ms.length < n
  · have h0 : ms.length - n = 0 := by omega
    have h1 : ms.length + 1 - n = 0 := by omega
    simp only [h0, h1, List.drop_zero]
    rw [if_neg (by simp; omega)]
  · push_neg at hlt
    have hdlen : (ms.drop (ms.length - n)).length = n := by
      rw [List.length_drop]; omega
    have hlen : (ms.drop (ms.length - n) ++ [m]).length = n + 1 := by
      rw [List.length_append, hdlen, List.length_singleton]
    rw [if_pos (by rw [hlen]; omega), if_neg (by omega), hlen]
    have h1 : n + 1 - n = 1 := by omega
    rw [h1]
    have lhs_eq : (ms.drop (ms.length - n) ++ [m]).drop 1 =
        ms.drop (ms.length - n + 1) ++ [m] := by
      rw [List.drop_append_of_le_length (by rw [hdlen]; omega), List.drop_drop]
    have rhs_eq : (ms ++ [m]).drop (ms.length + 1 - n) =
        ms.drop (ms.length + 1 - n) ++ [m] :=
      List.drop_append_of_le_length (by omega)
    rw [lhs_eq, rhs_eq]
    have h2 : ms.length - n + 1 = ms.length + 1 - n := by omega
    rw [h2]

/-- C3 (amended): for every positive configured `maxHistory = M` and every
sequence of appended messages, folding the `addToSession` trim from an empty
session stores exactly the last `min M N` appended messages in insertion
order — in particular the stored count never exceeds `M`, and once `N ≥ M`
the stored list is exactly the last `M` appends (oldest trimmed first). -/
theorem sessionTrim_spec (M : Nat) (hM : 0 < M) (ms : List ChatMessage) :
    ms.foldl (addMsgTrim M) [] = ms.drop (ms.length - M) ∧
    (ms.foldl (addMsgTrim M) []).length ≤ M := by
  have main : ∀ l : List ChatMessage, l.foldl (addMsgTrim M) [] = l.drop (l.length - M) := by
    intro l
    induction l using List.reverseRecOn with
    | nil => simp
    | append_singleton l m ih =>
        rw [List.foldl_append, List.foldl_cons, List.foldl_nil, ih,
          addMsgTrim_step M hM l m]
        simp
  refine ⟨main ms, ?_⟩
  rw [main ms, List.length_drop]
  omega

/-- C3 (witness): the amended trim theorem at `M = 2` with three concrete
appends: the store keeps exactly the last two messages, in order. -/
theorem sessionTrim_spec_witness :
    ([({role := Role.user, content := "a", timestamp := 1} : ChatMessage),
      {role := Role.assistant, content := "b", timestamp := 2},
      {role := Role.user, content := "c", timestamp := 3}].foldl (addMsgTrim 2) []) =
      [{role := Role.assistant, content := "b", timestamp := 2},
       {role := Role.user, content := "c", timestamp := 3}] ∧
    ([({role := Role.user, content := "a", timestamp := 1} : ChatMessage),
      {role := Role.assistant, content := "b", timestamp := 2},
      {role := Role.user, content := "c", timestamp := 3}].foldl (addMsgTrim 2) []).length ≤ 2 := by
  have h := sessionTrim_spec 2 (by decide)
    [{role := Role.user, content := "a", timestamp := 1},
     {role := Role.assistant, content := "b", timestamp := 2},
     {role := Role.user, content := "c", timestamp := 3}]
  exact ⟨by rw [h.1]; rfl, h.2⟩

/-! ## Association-list maps

`session.ts` keeps `sessions : Map<string, Session>` and
`pendingSaveTimers : Map<string, Timer>`, and the sessions directory maps
file paths to byte strings.  JavaScript `Map`s preserve insertion order:
`set` of a present key updates the entry in place, of an absent key appends
a new entry at the end. -/

/-- `Map.get`. -/
def mapGet (l : List (String × α)) (k : String) : Option α :=
  (l.find? (fun p => p.1 == k)).map (fun p => p.2)

/-- `Map.set`: update in place when the key is present, else append. -/
def mapSet (l : List (String × α)) (k : String) (v : α) : List (String × α) :=
  match l with
  | [] => [(k, v)]
  | p :: t => if p.1 == k then (k, v) :: t else p :: mapSet t k v

/-- `Map.delete` (and removal of a renamed file from the directory view). -/
def mapDelete (l : List (String × α)) (k : String) : List (String × α) :=
  l.filter (fun p => !(p.1 == k))

theorem mapGet_nil (k : String) : mapGet ([] : List (String × α)) k = none := rfl

theorem mapGet_cons (p : String × α) (t : List (String × α)) (k : String) :
    mapGet (p :: t) k = if p.1 == k then some p.2 else mapGet t k := by
  by_cases h : p.1 == k
  · simp [mapGet, List.find?_cons, h]
  · simp [mapGet, List.find?_cons, h]

theorem mapGet_eq_none_iff (l : List (String × α)) (k : String) :
    mapGet l k = none ↔ ∀ p ∈ l, p.1 ≠ k := by
  simp [mapGet, List.find?_eq_none]

theorem mapGet_set_self (l : List (String × α)) (k : String) (v : α) :
    mapGet (mapSet l k v) k = some v := by
  induction l with
  | nil => simp [mapSet, mapGet_cons]
  | cons p t ih =>
      by_cases h : p.1 == k
      · simp [mapSet, h, mapGet_cons]
      · simp only [mapSet, if_neg h]
        rw [mapGet_cons, if_neg h]
        exact ih

theorem mapGet_set_ne (l : List (String × α)) (k k' : String) (v : α)
    (h : k' ≠ k) : mapGet (mapSet l k v) k' = mapGet l k' := by
  induction l with
  | nil =>
      simp only [mapSet, mapGet_cons, mapGet_nil]
      rw [if_neg (by simpa using fun e => h e.symm)]
  | cons p t ih =>
      by_cases hp : p.1 == k
      · simp only [mapSet, if_pos hp]
        rw [mapGet_cons, mapGet_cons, if_neg (by simpa using fun e => h e.symm),
          if_neg (by rw [beq_iff_eq] at hp ⊢; rw [hp]; exact fun e => h e.symm)]
      · simp only [mapSet, if_neg hp]
        rw [mapGet_cons, mapGet_cons]
        by_cases hq : p.1 == k'
        · rw [if_pos hq, if_pos hq]
        · rw [if_neg hq, if_neg hq]
          exact ih

theorem mapSet_of_get_none (l : List (String × α)) (k : String) (v : α)
    (h : mapGet l k = none) : mapSet l k v = l ++ [(k, v)] := by
  induction l with
  | nil => rfl
  | cons p t ih =>
      rw [mapGet_cons] at h
      by_cases hp : p.1 == k
      · rw [if_pos hp] at h; exact absurd h (by simp)
      · rw [if_neg hp] at h
        simp only [mapSet, if_neg hp, List.cons_append]
        rw [ih h]

theorem mapGet_delete_self (l : List (String × α)) (k : String) :
    mapGet (mapDelete l k) k = none := by
  rw [mapGet_eq_none_iff]
  intro p hp
  have := List.of_mem_filter hp
  simpa using this

theorem mapGet_delete_ne (l : List (String × α)) (k k' : String) (h : k' ≠ k) :
    mapGet (mapDelete l k) k' = mapGet l k' := by
  induction l with
  | nil => rfl
  | cons p t ih =>
      simp only [mapDelete, List.filter_cons]
      by_cases hp : p.1 == k
      · rw [if_neg (by simp [hp])]
        rw [mapGet_cons, if_neg (by rw [beq_iff_eq] at hp ⊢; rw [hp]; exact fun e => h e.symm)]
        exact ih
      · rw [if_pos (by simp [hp])]
        rw [mapGet_cons, mapGet_cons]
        by_cases hq : p.1 == k'
        · rw [if_pos hq, if_pos hq]
        · rw [if_neg hq, if_neg hq]
          exact ih

theorem mapGet_of_mem_nodup (l : List (String × α)) (k : String) (v : α)
    (hnd : (l.map Prod.fst).Nodup) (hm : (k, v) ∈ l) : mapGet l k = some v := by
  induction l with
  | nil => simp at hm
  | cons p t ih =>
      simp only [List.map_cons, List.nodup_cons] at hnd
      rcases List.mem_cons.mp hm with he | ht
      · subst he
        rw [mapGet_cons, if_pos (by simp)]
      · have hp : p.1 ≠ k := by
          intro e
          exact hnd.1 (e ▸ (List.mem_map.mpr ⟨(k, v), ht, rfl⟩))
        rw [mapGet_cons, if_neg (by simpa using hp)]
        exact ih hnd.2 ht

theorem mapGet_append_single_self (l : List (String × α)) (k : String)
    (v : α) (h : mapGet l k = none) : mapGet (l ++ [(k, v)]) k = some v := by
  induction l with
  | nil => simp [mapGet_cons]
  | cons p t ih =>
      rw [mapGet_cons] at h
      by_cases hp : (p.1 == k) = true
      · rw [if_pos hp] at h
        exact absurd h (by simp)
      · rw [if_neg hp] at h
        rw [List.cons_append, mapGet_cons, if_neg hp]
        exact ih h

theorem mapGet_append_single_ne (l : List (String × α)) (c k : String)
    (v : α) (h : k ≠ c) : mapGet (l ++ [(c, v)]) k = mapGet l k := by
  induction l with
  | nil =>
      rw [List.nil_append, mapGet_cons, if_neg (by simpa using fun e => h e.symm),
        mapGet_nil]
  | cons p t ih =>
      rw [List.cons_append, mapGet_cons, mapGet_cons]
      by_cases hp : (p.1 == k) = true
      · rw [if_pos hp, if_pos hp]
      · rw [if_neg hp, if_neg hp]
        exact ih

theorem nodup_key_mem_unique (l : List (String × α)) (k : String) (a b : α)
    (hnd : (l.map Prod.fst).Nodup) (ha : (k, a) ∈ l) (hb : (k, b) ∈ l) :
    a = b := by
  have h1 := mapGet_of_mem_nodup l k a hnd ha
  have h2 := mapGet_of_mem_nodup l k b hnd hb
  rw [h1] at h2
  injection h2

theorem mapDelete_length_lt (l : List (String × α)) (k : String) (v : α)
    (hm : (k, v) ∈ l) : (mapDelete l k).length < l.length := by
  induction l with
  | nil => simp at hm
  | cons p t ih =>
      unfold mapDelete
      simp only [List.filter_cons]
      rcases List.mem_cons.mp hm with he | ht
      · subst he
        rw [if_neg (by simp)]
        have : (List.filter (fun p => !(p.1 == k)) t).length ≤ t.length :=
          List.length_filter_le _ t
        simpa [mapDelete] using Nat.lt_succ_of_le this
      · by_cases hp : (!(p.1 == k)) = true
        · rw [if_pos hp]
          simpa [mapDelete] using ih ht
        · rw [if_neg hp]
          have h1 : (List.filter (fun p => !(p.1 == k)) t).length ≤ t.length :=
            List.length_filter_le _ t
          have h2 := ih ht
          simp only [List.length_cons, mapDelete] at *
          omega

/-! ## Session store (`session.ts`)

The module-level mutable state (`sessions`, `pendingSaveTimers`, the files
under `CONFIG.sessionsDir`, and the count of `fs.writeFileSync` calls) is a
`SessionStore` record.  External collaborators are a `SessionExt` record:
`parse` models `JSON.parse` (`none` = the parse throws, or does not yield a
session), `stringify` models `JSON.stringify`, `now` models `Date.now()`,
`maxHistory` and `sessionsDir` model the corresponding `CONFIG` fields. -/

structure SessionExt where
  sessionsDir : String
  maxHistory : Nat
  now : Nat
  parse : String → Option Session
  stringify : Session → String

/-- The mutable module state of `session.ts`.  `pending` is the key set of
`pendingSaveTimers`; `writes` counts `fs.writeFileSync` calls. -/
structure SessionStore where
  sessions : List (String × Session)
  pending : List String
  disk : List (String × String)
  writes : Nat

/-- `chatId.replace(/[^a-zA-Z0-9]/g, "_")` in `getSessionPath`. -/
def sanitizeId (chatId : String) : String :=
  ⟨chatId.data.map (fun c => if c.isAlphanum then c else '_')⟩

/-- `getSessionPath`: `path.join(CONFIG.sessionsDir, safeId + ".json")`. -/
def getSessionPath (ext : SessionExt) (chatId : String) : String :=
  ext.sessionsDir ++ "/" ++ sanitizeId chatId ++ ".json"

/-- `MAX_CACHED_SESSIONS = 20`. -/
def MAX_CACHED_SESSIONS : Nat := 20

/-- `flushSession`: if a save timer is pending for `chatId`, cancel it,
remove it from the pending map, and synchronously write the cached session
(if still cached) to its path.  `fs.mkdirSync` is a filesystem no-op in the
model; a write failure is assumed not to occur. -/
def flushSession (ext : SessionExt) (st : SessionStore) (chatId : String) :
    SessionStore :=
  if st.pending.any (fun c => c == chatId) then
    match mapGet st.sessions chatId with
    | none => { st with pending := st.pending.filter (fun c => !(c == chatId)) }
    | some s =>
        { st with
          pending := st.pending.filter (fun c => !(c == chatId)),
          disk := mapSet st.disk (getSessionPath ext chatId) (ext.stringify s),
          writes := st.writes + 1 }
  else st

/-- The debounced save timer callback in `saveSession` performs exactly the
same steps as `flushSession` (delete the pending entry, re-read the cached
session, skip if it was cleared, write).  A timer can only fire while it is
pending, which the `pending.any` guard enforces. -/
def fireSaveTimer (ext : SessionExt) : SessionStore → String → SessionStore :=
  flushSession ext

/-- Stable insertion into a list sorted by ascending `lastActivity`; models
one step of the comparator `(a, b) => a[1].lastActivity - b[1].lastActivity`. -/
def insertByActivity (x : String × Session) :
    List (String × Session) → List (String × Session)
  | [] => [x]
  | y :: ys =>
      if x.2.lastActivity ≤ y.2.lastActivity then x :: y :: ys
      else y :: insertByActivity x ys

/-- `[...sessions.entries()].sort((a, b) => a[1].lastActivity - b[1].lastActivity)`
(stable, ascending). -/
def sortByActivity : List (String × Session) → List (String × Session)
  | [] => []
  | x :: xs => insertByActivity x (sortByActivity xs)

/-- `evictOldSessions`: when over the bound, flush-then-delete the
`size - MAX_CACHED_SESSIONS` least-recently-active entries. -/
def evictOldSessions (ext : SessionExt) (st : SessionStore) : SessionStore :=
  if st.sessions.length ≤ MAX_CACHED_SESSIONS then st
  else
    ((sortByActivity st.sessions).take (st.sessions.length - MAX_CACHED_SESSIONS)).foldl
      (fun acc p =>
        let acc1 := flushSession ext acc p.1
        { acc1 with sessions := mapDelete acc1.sessions p.1 })
      st

/-- `loadSession`: cache hit returns the cached session; otherwise read the
backing file.  A missing file (`ENOENT`) yields a fresh empty session; an
unparsable file is renamed to `path + ".corrupted." + Date.now()` (modelled
as a delete plus an insert under the backup path; the rename is assumed to
succeed) and a fresh empty session is substituted.  The result is cached
and the cache bound enforced. -/
def loadSession (ext : SessionExt) (st : SessionStore) (chatId : String) :
    Session × SessionStore :=
  match mapGet st.sessions chatId with
  | some s => (s, st)
  | none =>
      match mapGet st.disk (getSessionPath ext chatId) with
      | none =>
          (⟨[], ext.now, none⟩,
            evictOldSessions ext
              { st with
                sessions := mapSet st.sessions chatId ⟨[], ext.now, none⟩ })
      | some data =>
          match ext.parse data with
          | some s =>
              (s, evictOldSessions ext
                { st with sessions := mapSet st.sessions chatId s })
          | none =>
              (⟨[], ext.now, none⟩,
                evictOldSessions ext
                  { st with
                    sessions := mapSet st.sessions chatId ⟨[], ext.now, none⟩,
                    disk := mapSet (mapDelete st.disk (getSessionPath ext chatId))
                      (getSessionPath ext chatId ++ ".corrupted." ++ toString ext.now)
                      data })

/-- `saveSession`: debounce — if a save is already pending for this id, do
nothing; otherwise schedule one (`setTimeout` + `pendingSaveTimers.set`).
No disk write happens here. -/
def saveSession (st : SessionStore) (chatId : String) : SessionStore :=
  if st.pending.any (fun c => c == chatId) then st
  else { st with pending := st.pending ++ [chatId] }

/-- `addToSession`: load, push the new `{role, content, timestamp}`, stamp
`lastActivity`, trim to `CONFIG.maxHistory`, store back (the source mutates
the cached object in place) and schedule a debounced save. -/
def addToSession (ext : SessionExt) (st : SessionStore) (chatId : String)
    (role : Role) (content : String) : SessionStore :=
  let (s, st1) := loadSession ext st chatId
  let s1 : Session :=
    { s with
      messages := addMsgTrim ext.maxHistory s.messages ⟨role, content, ext.now⟩,
      lastActivity := ext.now }
  saveSession { st1 with sessions := mapSet st1.sessions chatId s1 } chatId

/-! ## Helper lemmas about the store operations -/

theorem evictOldSessions_of_le (ext : SessionExt) (st : SessionStore)
    (h : st.sessions.length ≤ MAX_CACHED_SESSIONS) :
    evictOldSessions ext st = st := by
  simp [evictOldSessions, h]

theorem mapSet_length_of_get_none (l : List (String × α)) (k : String) (v : α)
    (h : mapGet l k = none) : (mapSet l k v).length = l.length + 1 := by
  rw [mapSet_of_get_none l k v h, List.length_append, List.length_singleton]

theorem string_ne_append_corrupted (p t : String) :
    p ≠ p ++ ".corrupted." ++ t := by
  intro e
  have h := congrArg String.length e
  rw [String.length_append, String.length_append] at h
  have h11 : (".corrupted." : String).length = 11 := by decide
  omega

/-- `addToSession` on a cache hit: the stored session gets the pushed and
trimmed message list and a fresh `lastActivity`; a save is scheduled unless
one is already pending; nothing is written. -/
theorem addToSession_cached (ext : SessionExt) (st : SessionStore)
    (chatId : String) (role : Role) (content : String) (s : Session)
    (h : mapGet st.sessions chatId = some s) :
    addToSession ext st chatId role content =
      { st with
        sessions := mapSet st.sessions chatId
          ⟨addMsgTrim ext.maxHistory s.messages ⟨role, content, ext.now⟩,
            ext.now, s.conversationSummary⟩,
        pending :=
          if st.pending.any (fun c => c == chatId) then st.pending
          else st.pending ++ [chatId] } := by
  unfold addToSession loadSession saveSession
  rw [h]
  by_cases hp : (st.pending.any fun c => c == chatId) = true <;> simp [hp]

theorem any_append_self (l : List String) (x : String) :
    ((l ++ [x]).any (fun c => c == x)) = true := by
  rw [List.any_append]
  simp

/-- Folding further appends over a state that already has a pending save:
no new save is scheduled, nothing is written, the session stays cached. -/
theorem fold_appends_aux (ext : SessionExt) (chatId : String) :
    ∀ (l : List (Role × String)) (st' : SessionStore) (s' : Session),
      mapGet st'.sessions chatId = some s' →
      st'.pending.any (fun c => c == chatId) = true →
      (l.foldl (fun acc rc => addToSession ext acc chatId rc.1 rc.2) st').writes
          = st'.writes ∧
      (l.foldl (fun acc rc => addToSession ext acc chatId rc.1 rc.2) st').disk
          = st'.disk ∧
      (l.foldl (fun acc rc => addToSession ext acc chatId rc.1 rc.2) st').pending
          = st'.pending ∧
      ∃ sf, mapGet
        (l.foldl (fun acc rc => addToSession ext acc chatId rc.1 rc.2) st').sessions
        chatId = some sf := by
  intro l
  induction l with
  | nil => exact fun st' s' hs hp => ⟨rfl, rfl, rfl, ⟨s', hs⟩⟩
  | cons rc rest ih =>
      intro st' s' hs hp
      rw [List.foldl_cons, addToSession_cached ext st' chatId rc.1 rc.2 s' hs,
        if_pos hp]
      exact ih _ _ (mapGet_set_self _ _ _) hp

/-- `flushSession` on a store with a pending timer and a cached session:
the timer entry is removed, the serialized session is written to its path,
and the write counter increments. -/
theorem flushSession_spec (ext : SessionExt) (st : SessionStore)
    (chatId : String) (s : Session)
    (hcond : (st.pending.any fun c => c == chatId) = true)
    (hs : mapGet st.sessions chatId = some s) :
    flushSession ext st chatId =
      { st with
        pending := st.pending.filter (fun c => !(c == chatId)),
        disk := mapSet st.disk (getSessionPath ext chatId) (ext.stringify s),
        writes := st.writes + 1 } := by
  unfold flushSession
  rw [if_pos hcond, hs]

/-! ## Theorems for debounced persistence (claim C5) -/

/-- C5: persistence is debounced per conversation id.  Starting from a
cached session with no pending save, any non-empty run of `addToSession`
calls performs no disk write and schedules exactly one save; when the timer
fires, exactly one write happens, and what is written is the serialization
of the in-memory session at firing time (the state after ALL the appends,
not the state when the save was scheduled). -/
theorem debounceWrite_spec (ext : SessionExt) (st : SessionStore)
    (chatId : String) (s0 : Session) (appends : List (Role × String))
    (hcached : mapGet st.sessions chatId = some s0)
    (hnp : st.pending.any (fun c => c == chatId) = false)
    (hne : appends ≠ []) :
    (appends.foldl (fun acc rc => addToSession ext acc chatId rc.1 rc.2) st).writes
        = st.writes ∧
    (appends.foldl (fun acc rc => addToSession ext acc chatId rc.1 rc.2) st).disk
        = st.disk ∧
    (appends.foldl (fun acc rc => addToSession ext acc chatId rc.1 rc.2) st).pending
        = st.pending ++ [chatId] ∧
    ∃ sf, mapGet
        (appends.foldl (fun acc rc => addToSession ext acc chatId rc.1 rc.2) st).sessions
        chatId = some sf ∧
      (fireSaveTimer ext
        (appends.foldl (fun acc rc => addToSession ext acc chatId rc.1 rc.2) st)
        chatId).writes = st.writes + 1 ∧
      mapGet (fireSaveTimer ext
        (appends.foldl (fun acc rc => addToSession ext acc chatId rc.1 rc.2) st)
        chatId).disk (getSessionPath ext chatId) = some (ext.stringify sf) ∧
      (fireSaveTimer ext
        (appends.foldl (fun acc rc => addToSession ext acc chatId rc.1 rc.2) st)
        chatId).pending = st.pending := by
  obtain ⟨a, rest, rfl⟩ : ∃ a rest, appends = a :: rest := by
    cases appends with
    | nil => exact absurd rfl hne
    | cons a rest => exact ⟨a, rest, rfl⟩
  rw [List.foldl_cons, addToSession_cached ext st chatId a.1 a.2 s0 hcached,
    if_neg (by rw [hnp]; exact Bool.false_ne_true)]
  set stA : SessionStore :=
    { st with
      sessions := mapSet st.sessions chatId
        ⟨addMsgTrim ext.maxHistory s0.messages ⟨a.1, a.2, ext.now⟩,
          ext.now, s0.conversationSummary⟩,
      pending := st.pending ++ [chatId] } with hstA
  have hpendA : stA.pending.any (fun c => c == chatId) = true :=
    any_append_self st.pending chatId
  obtain ⟨hw, hd, hpend, sf, hsf⟩ :=
    fold_appends_aux ext chatId rest stA _ (mapGet_set_self _ _ _) hpendA
  set stF : SessionStore :=
    (rest.foldl (fun acc rc => addToSession ext acc chatId rc.1 rc.2) stA) with hstF
  have hcond : (stF.pending.any fun c => c == chatId) = true := by
    rw [hpend]
    exact any_append_self st.pending chatId
  have hfl := flushSession_spec ext stF chatId sf hcond hsf
  refine ⟨hw, hd, by rw [hpend], sf, hsf, ?_, ?_, ?_⟩
  · unfold fireSaveTimer
    rw [hfl]
    show stF.writes + 1 = st.writes + 1
    rw [hw]
  · unfold fireSaveTimer
    rw [hfl]
    show mapGet (mapSet stF.disk (getSessionPath ext chatId) (ext.stringify sf))
      (getSessionPath ext chatId) = some (ext.stringify sf)
    exact mapGet_set_self _ _ _
  · unfold fireSaveTimer
    rw [hfl]
    show stF.pending.filter (fun c => !(c == chatId)) = st.pending
    rw [hpend, List.filter_append]
    have h1 : st.pending.filter (fun c => !(c == chatId)) = st.pending := by
      apply List.filter_eq_self.mpr
      intro x hx
      have := (List.any_eq_false.mp hnp) x hx
      simpa using this
    have h2 : [chatId].filter (fun c => !(c == chatId)) = [] := by simp
    rw [h1, h2, List.append_nil]

/-- C5 (witness): the debounce theorem at a concrete store — one cached
conversation `"chat"`, two appends, then the timer fires: zero writes
during the appends, one write at firing, containing the final state. -/
theorem debounceWrite_spec_witness :
    (([(Role.user, "q1"), (Role.assistant, "a1")].foldl
        (fun acc rc => addToSession
          ⟨"sessions", 50, 7, fun _ => none, fun s => toString s.messages.length⟩
          acc "chat" rc.1 rc.2)
        ⟨[("chat", ⟨[], 0, none⟩)], [], [], 0⟩).writes = 0) ∧
    ∃ sf, mapGet
        (([(Role.user, "q1"), (Role.assistant, "a1")].foldl
          (fun acc rc => addToSession
            ⟨"sessions", 50, 7, fun _ => none, fun s => toString s.messages.length⟩
            acc "chat" rc.1 rc.2)
          ⟨[("chat", ⟨[], 0, none⟩)], [], [], 0⟩)).sessions "chat" = some sf ∧
      (fireSaveTimer
        ⟨"sessions", 50, 7, fun _ => none, fun s => toString s.messages.length⟩
        (([(Role.user, "q1"), (Role.assistant, "a1")].foldl
          (fun acc rc => addToSession
            ⟨"sessions", 50, 7, fun _ => none, fun s => toString s.messages.length⟩
            acc "chat" rc.1 rc.2)
          ⟨[("chat", ⟨[], 0, none⟩)], [], [], 0⟩)) "chat").writes = 1 := by
  have h := debounceWrite_spec
    ⟨"sessions", 50, 7, fun _ => none, fun s => toString s.messages.length⟩
    ⟨[("chat", ⟨[], 0, none⟩)], [], [], 0⟩ "chat" ⟨[], 0, none⟩
    [(Role.user, "q1"), (Role.assistant, "a1")] (by rfl) (by rfl) (by decide)
  obtain ⟨hw, _, _, sf, hsf, hw2, _, _⟩ := h
  exact ⟨hw, sf, hsf, hw2⟩

/-! ## Reduction lemmas for `loadSession` -/

theorem loadSession_hit (ext : SessionExt) (st : SessionStore) (c : String)
    (s : Session) (h : mapGet st.sessions c = some s) :
    loadSession ext st c = (s, st) := by
  unfold loadSession
  simp only [h]

theorem loadSession_miss_nofile (ext : SessionExt) (st : SessionStore)
    (c : String) (hmiss : mapGet st.sessions c = none)
    (hdisk : mapGet st.disk (getSessionPath ext c) = none) :
    loadSession ext st c =
      (⟨[], ext.now, none⟩,
        evictOldSessions ext
          { st with sessions := mapSet st.sessions c ⟨[], ext.now, none⟩ }) := by
  unfold loadSession
  simp only [hmiss, hdisk]

theorem loadSession_miss_corrupt (ext : SessionExt) (st : SessionStore)
    (c : String) (data : String) (hmiss : mapGet st.sessions c = none)
    (hdata : mapGet st.disk (getSessionPath ext c) = some data)
    (hparse : ext.parse data = none) :
    loadSession ext st c =
      (⟨[], ext.now, none⟩,
        evictOldSessions ext
          { st with
            sessions := mapSet st.sessions c ⟨[], ext.now, none⟩,
            disk := mapSet (mapDelete st.disk (getSessionPath ext c))
              (getSessionPath ext c ++ ".corrupted." ++ toString ext.now) data }) := by
  unfold loadSession
  simp only [hmiss, hdata, hparse]

theorem loadSession_miss_parsed (ext : SessionExt) (st : SessionStore)
    (c data : String) (s : Session) (hmiss : mapGet st.sessions c = none)
    (hdata : mapGet st.disk (getSessionPath ext c) = some data)
    (hparse : ext.parse data = some s) :
    loadSession ext st c =
      (s, evictOldSessions ext
        { st with sessions := mapSet st.sessions c s }) := by
  unfold loadSession
  simp only [hmiss, hdata, hparse]

/-! ## Theorems for corruption handling (claim C6) -/

/-- C6: `loadSession` never raises on any on-disk content.  For an uncached
conversation (cache not full, so eviction is a no-op): if the backing file
exists but its bytes fail to parse, the file is renamed to
`path + ".corrupted." + timestamp` (original path gone, backup holds the
bytes) and a fresh empty session `{messages: [], lastActivity: now}` is
returned and cached; if the file is missing, a fresh empty session is
likewise returned and cached with the disk untouched. -/
theorem corruptLoad_spec (ext : SessionExt) (st : SessionStore) (c : String)
    (hmiss : mapGet st.sessions c = none)
    (hsz : st.sessions.length < MAX_CACHED_SESSIONS) :
    (∀ data, mapGet st.disk (getSessionPath ext c) = some data →
      ext.parse data = none →
      (loadSession ext st c).1 = ⟨[], ext.now, none⟩ ∧
      mapGet (loadSession ext st c).2.sessions c = some ⟨[], ext.now, none⟩ ∧
      mapGet (loadSession ext st c).2.disk (getSessionPath ext c) = none ∧
      mapGet (loadSession ext st c).2.disk
        (getSessionPath ext c ++ ".corrupted." ++ toString ext.now) = some data) ∧
    (mapGet st.disk (getSessionPath ext c) = none →
      (loadSession ext st c).1 = ⟨[], ext.now, none⟩ ∧
      mapGet (loadSession ext st c).2.sessions c = some ⟨[], ext.now, none⟩ ∧
      (loadSession ext st c).2.disk = st.disk) := by
  have hlen1 : (mapSet st.sessions c (⟨[], ext.now, none⟩ : Session)).length =
      st.sessions.length + 1 := mapSet_length_of_get_none _ _ _ hmiss
  constructor
  · intro data hdata hparse
    rw [loadSession_miss_corrupt ext st c data hmiss hdata hparse]
    rw [evictOldSessions_of_le _ _ (by
      show (mapSet st.sessions c ⟨[], ext.now, none⟩).length ≤ MAX_CACHED_SESSIONS
      omega)]
    refine ⟨rfl, mapGet_set_self _ _ _, ?_, ?_⟩
    · show mapGet (mapSet (mapDelete st.disk (getSessionPath ext c))
        (getSessionPath ext c ++ ".corrupted." ++ toString ext.now) data)
        (getSessionPath ext c) = none
      rw [mapGet_set_ne _ _ _ _
        (string_ne_append_corrupted (getSessionPath ext c) (toString ext.now))]
      exact mapGet_delete_self _ _
    · exact mapGet_set_self _ _ _
  · intro hnone
    rw [loadSession_miss_nofile ext st c hmiss hnone]
    rw [evictOldSessions_of_le _ _ (by
      show (mapSet st.sessions c ⟨[], ext.now, none⟩).length ≤ MAX_CACHED_SESSIONS
      omega)]
    exact ⟨rfl, mapGet_set_self _ _ _, rfl⟩

/-- C6 (witness): the corruption theorem at a concrete store whose only
file is unparsable garbage at the conversation's path: the load returns the
fresh empty session, the original path is gone, and the backup holds the
bytes; and the same theorem's missing-file branch on an empty disk. -/
theorem corruptLoad_spec_witness :
    (loadSession ⟨"sessions", 50, 99, fun _ => none, fun _ => "ser"⟩
      ⟨[], [], [("sessions/chat_1.json", "garbage")], 0⟩ "chat@1").1 =
      ⟨[], 99, none⟩ ∧
    mapGet (loadSession ⟨"sessions", 50, 99, fun _ => none, fun _ => "ser"⟩
      ⟨[], [], [("sessions/chat_1.json", "garbage")], 0⟩ "chat@1").2.disk
      "sessions/chat_1.json" = none ∧
    mapGet (loadSession ⟨"sessions", 50, 99, fun _ => none, fun _ => "ser"⟩
      ⟨[], [], [("sessions/chat_1.json", "garbage")], 0⟩ "chat@1").2.disk
      "sessions/chat_1.json.corrupted.99" = some "garbage" := by
  have h := (corruptLoad_spec ⟨"sessions", 50, 99, fun _ => none, fun _ => "ser"⟩
    ⟨[], [], [("sessions/chat_1.json", "garbage")], 0⟩ "chat@1" rfl
    (by decide)).1 "garbage" (by rfl) rfl
  exact ⟨h.1, h.2.2.1, h.2.2.2⟩

/-! ## Stable sort lemmas, for eviction (claim C4) -/

theorem insertByActivity_ne_nil (x : String × Session)
    (l : List (String × Session)) : insertByActivity x l ≠ [] := by
  cases l with
  | nil => simp [insertByActivity]
  | cons y ys =>
      unfold insertByActivity
      by_cases h : x.2.lastActivity ≤ y.2.lastActivity
      · rw [if_pos h]; simp
      · rw [if_neg h]; simp

theorem sortByActivity_cons_ne_nil (x : String × Session)
    (xs : List (String × Session)) : sortByActivity (x :: xs) ≠ [] := by
  simp only [sortByActivity]
  exact insertByActivity_ne_nil x _

/-- The head of the activity-sorted list is a member attaining the minimum
`lastActivity`. -/
theorem sortByActivity_head_min (l : List (String × Session))
    (h : String × Session) (t : List (String × Session))
    (hs : sortByActivity l = h :: t) :
    h ∈ l ∧ ∀ p ∈ l, h.2.lastActivity ≤ p.2.lastActivity := by
  induction l generalizing h t with
  | nil => simp [sortByActivity] at hs
  | cons x xs ih =>
      simp only [sortByActivity] at hs
      cases hsx : sortByActivity xs with
      | nil =>
          have hxs : xs = [] := by
            cases xs with
            | nil => rfl
            | cons a as => exact absurd hsx (sortByActivity_cons_ne_nil a as)
          rw [hsx] at hs
          have heq : x :: ([] : List (String × Session)) = h :: t := by
            simpa [insertByActivity] using hs
          injection heq with e1 e2
          subst e1
          refine ⟨by simp, ?_⟩
          intro p hp
          rw [hxs] at hp
          rcases List.mem_cons.mp hp with rfl | hp2
          · exact le_refl _
          · simp at hp2
      | cons y ys =>
          obtain ⟨hy_mem, hy_min⟩ := ih y ys hsx
          rw [hsx] at hs
          unfold insertByActivity at hs
          by_cases hc : x.2.lastActivity ≤ y.2.lastActivity
          · rw [if_pos hc] at hs
            injection hs with e1 e2
            subst e1
            refine ⟨by simp, ?_⟩
            intro p hp
            rcases List.mem_cons.mp hp with rfl | hp2
            · exact le_refl _
            · exact le_trans hc (hy_min p hp2)
          · rw [if_neg hc] at hs
            injection hs with e1 e2
            subst e1
            refine ⟨List.mem_cons_of_mem x hy_mem, ?_⟩
            intro p hp
            rcases List.mem_cons.mp hp with rfl | hp2
            · exact le_of_not_le hc
            · exact hy_min p hp2

theorem sortByActivity_eq_nil (l : List (String × Session))
    (h : sortByActivity l = []) : l = [] := by
  cases l with
  | nil => rfl
  | cons x xs => exact absurd h (sortByActivity_cons_ne_nil x xs)

theorem any_filter_ne_self (l : List String) (x : String) :
    ((l.filter (fun c => !(c == x))).any (fun c => c == x)) = false := by
  rw [List.any_eq_false]
  intro y hy
  have := List.of_mem_filter hy
  simpa using this

theorem mapDelete_eq_self_of_get_none (l : List (String × α)) (k : String)
    (h : mapGet l k = none) : mapDelete l k = l := by
  rw [mapGet_eq_none_iff] at h
  unfold mapDelete
  apply List.filter_eq_self.mpr
  intro p hp
  simpa using h p hp

theorem mapDelete_length_nodup (l : List (String × α)) (k : String) (v : α)
    (hnd : (l.map Prod.fst).Nodup) (hm : (k, v) ∈ l) :
    (mapDelete l k).length = l.length - 1 := by
  induction l with
  | nil => simp at hm
  | cons p t ih =>
      simp only [List.map_cons, List.nodup_cons] at hnd
      rcases List.mem_cons.mp hm with he | ht
      · have hpk : p = (k, v) := he.symm
        subst hpk
        unfold mapDelete
        rw [List.filter_cons, if_neg (by simp)]
        have hget : mapGet t k = none := by
          rw [mapGet_eq_none_iff]
          intro q hq e
          exact hnd.1 (e ▸ List.mem_map.mpr ⟨q, hq, rfl⟩)
        have hdel : mapDelete t k = t := mapDelete_eq_self_of_get_none t k hget
        unfold mapDelete at hdel
        rw [hdel]
        simp
      · by_cases hp : p.1 = k
        · exact absurd (List.mem_map.mpr ⟨(k, v), ht, rfl⟩) (hp ▸ hnd.1)
        · unfold mapDelete
          rw [List.filter_cons, if_pos (by simpa using hp)]
          have hrec := ih hnd.2 ht
          unfold mapDelete at hrec
          rw [List.length_cons, hrec]
          have hpos : 1 ≤ t.length := by
            cases t with
            | nil => simp at ht
            | cons a as => simp
          simp only [List.length_cons]
          omega

theorem flushSession_sessions (ext : SessionExt) (st : SessionStore)
    (cid : String) : (flushSession ext st cid).sessions = st.sessions := by
  unfold flushSession
  by_cases hp : (st.pending.any fun c => c == cid) = true
  · rw [if_pos hp]
    cases hmg : mapGet st.sessions cid with
    | none => rfl
    | some s => rfl
  · rw [if_neg hp]

theorem flushSession_pending_cleared (ext : SessionExt) (st : SessionStore)
    (cid : String) :
    ((flushSession ext st cid).pending.any fun c => c == cid) = false := by
  unfold flushSession
  by_cases hp : (st.pending.any fun c => c == cid) = true
  · rw [if_pos hp]
    cases hmg : mapGet st.sessions cid with
    | none => exact any_filter_ne_self st.pending cid
    | some s => exact any_filter_ne_self st.pending cid
  · rw [if_neg hp]
    exact Bool.eq_false_iff.mpr hp

/-- `evictOldSessions` on a cache of exactly 21 entries performs exactly one
flush-then-delete step, on the head of the activity-sorted entry list. -/
theorem evictOldSessions_one (ext : SessionExt) (st : SessionStore)
    (h : String × Session) (t : List (String × Session))
    (hlen : st.sessions.length = MAX_CACHED_SESSIONS + 1)
    (hs : sortByActivity st.sessions = h :: t) :
    evictOldSessions ext st =
      { flushSession ext st h.1 with
        sessions := mapDelete (flushSession ext st h.1).sessions h.1 } := by
  unfold evictOldSessions
  rw [if_neg (by rw [hlen]; decide), hs, hlen]
  have h1 : MAX_CACHED_SESSIONS + 1 - MAX_CACHED_SESSIONS = 1 := by decide
  rw [h1]
  simp only [List.take_succ_cons, List.take_zero, List.foldl_cons, List.foldl_nil]

/-- Eviction core: inserting a 21st entry `(c, fresh)` after a full cache
of 20 entries `l` whose strictly least-recently-active entry is
`(mid, msess)` evicts exactly that entry — the cache is back to 20 entries,
holds `c` and everything but `mid` unchanged, a pending write for `mid` is
flushed to `mid`'s path before the entry is dropped, and no timer for `mid`
remains pending. -/
theorem evictStep_min (ext : SessionExt) (stI : SessionStore) (c mid : String)
    (msess fresh : Session) (l : List (String × Session))
    (hsess : stI.sessions = l ++ [(c, fresh)])
    (hnd : (l.map Prod.fst).Nodup)
    (hlenl : l.length = MAX_CACHED_SESSIONS)
    (hmissl : mapGet l c = none)
    (hm : (mid, msess) ∈ l)
    (hmin : ∀ p ∈ l, p.1 ≠ mid → msess.lastActivity < p.2.lastActivity)
    (hfresh : msess.lastActivity < fresh.lastActivity) :
    (evictOldSessions ext stI).sessions.length = MAX_CACHED_SESSIONS ∧
    mapGet (evictOldSessions ext stI).sessions c = some fresh ∧
    mapGet (evictOldSessions ext stI).sessions mid = none ∧
    (∀ k, k ≠ mid → k ≠ c → mapGet (evictOldSessions ext stI).sessions k = mapGet l k) ∧
    ((stI.pending.any fun x => x == mid) = true →
      mapGet (evictOldSessions ext stI).disk (getSessionPath ext mid) =
        some (ext.stringify msess)) ∧
    (((evictOldSessions ext stI).pending.any fun x => x == mid) = false) := by
  have hmid_ne_c : mid ≠ c := (mapGet_eq_none_iff l c).mp hmissl (mid, msess) hm
  have hlen2 : stI.sessions.length = MAX_CACHED_SESSIONS + 1 := by
    rw [hsess, List.length_append, hlenl]
    rfl
  obtain ⟨h0, t0, hsort⟩ : ∃ h0 t0, sortByActivity stI.sessions = h0 :: t0 := by
    cases hsl : sortByActivity stI.sessions with
    | nil =>
        have := sortByActivity_eq_nil _ hsl
        rw [this] at hlen2
        simp at hlen2
    | cons h0 t0 => exact ⟨h0, t0, rfl⟩
  obtain ⟨hmem0, hmin0⟩ := sortByActivity_head_min _ h0 t0 hsort
  have hmemS : (mid, msess) ∈ stI.sessions := by
    rw [hsess]; exact List.mem_append_left _ hm
  have hstrict : ∀ p ∈ stI.sessions, p ≠ (mid, msess) →
      msess.lastActivity < p.2.lastActivity := by
    intro p hp hne
    rw [hsess] at hp
    rcases List.mem_append.mp hp with hp1 | hp2
    · by_cases hk : p.1 = mid
      · exfalso
        apply hne
        have hp1' : (mid, p.2) ∈ l := by
          rw [← hk]
          simpa using hp1
        have := nodup_key_mem_unique l mid p.2 msess hnd hp1' hm
        calc p = (p.1, p.2) := rfl
          _ = (mid, msess) := by rw [hk, this]
      · exact hmin p hp1 hk
    · have hpc : p = (c, fresh) := by simpa using hp2
      rw [hpc]
      exact hfresh
  have h0_eq : h0 = (mid, msess) := by
    by_contra hne
    have h1 := hstrict h0 hmem0 hne
    have h2 : h0.2.lastActivity ≤ msess.lastActivity := hmin0 (mid, msess) hmemS
    omega
  rw [h0_eq] at hsort
  rw [evictOldSessions_one ext stI (mid, msess) t0 hlen2 hsort]
  have hflsess : (flushSession ext stI mid).sessions = stI.sessions :=
    flushSession_sessions ext stI mid
  have hnd2 : ((l ++ [(c, fresh)]).map Prod.fst).Nodup := by
    rw [List.map_append]
    refine List.Nodup.append hnd (by simp) ?_
    intro a ha hb
    simp only [List.map_cons, List.map_nil, List.mem_singleton] at hb
    subst hb
    obtain ⟨q, hq, hq1⟩ := List.mem_map.mp ha
    exact (mapGet_eq_none_iff l a).mp hmissl q hq hq1
  refine ⟨?_, ?_, ?_, ?_, ?_, ?_⟩
  · show (mapDelete (flushSession ext stI mid).sessions mid).length =
      MAX_CACHED_SESSIONS
    rw [hflsess, hsess]
    rw [mapDelete_length_nodup _ mid msess hnd2 (List.mem_append_left _ hm)]
    rw [List.length_append, hlenl]
    rfl
  · show mapGet (mapDelete (flushSession ext stI mid).sessions mid) c = some fresh
    rw [hflsess, hsess, mapGet_delete_ne _ _ _ (fun e => hmid_ne_c e.symm)]
    exact mapGet_append_single_self l c fresh hmissl
  · show mapGet (mapDelete (flushSession ext stI mid).sessions mid) mid = none
    exact mapGet_delete_self _ _
  · intro k hkmid hkc
    show mapGet (mapDelete (flushSession ext stI mid).sessions mid) k = mapGet l k
    rw [hflsess, hsess, mapGet_delete_ne _ _ _ hkmid,
      mapGet_append_single_ne l c k fresh hkc]
  · intro hpend
    have hget_mid : mapGet stI.sessions mid = some msess := by
      rw [hsess, mapGet_append_single_ne l c mid fresh hmid_ne_c]
      exact mapGet_of_mem_nodup l mid msess hnd hm
    show mapGet (flushSession ext stI mid).disk (getSessionPath ext mid) =
      some (ext.stringify msess)
    rw [flushSession_spec ext stI mid msess hpend hget_mid]
    exact mapGet_set_self _ _ _
  · show ((flushSession ext stI mid).pending.any fun x => x == mid) = false
    exact flushSession_pending_cleared ext stI mid

/-- Any completed load leaves the cache within the bound (assuming it was
within the bound before, as every reachable state is). -/
theorem loadSession_length_le (ext : SessionExt) (st : SessionStore)
    (c : String) (h : st.sessions.length ≤ MAX_CACHED_SESSIONS) :
    (loadSession ext st c).2.sessions.length ≤ MAX_CACHED_SESSIONS := by
  have key : ∀ stI : SessionStore,
      stI.sessions.length ≤ MAX_CACHED_SESSIONS + 1 →
      (evictOldSessions ext stI).sessions.length ≤ MAX_CACHED_SESSIONS := by
    intro stI hle
    by_cases hgt : stI.sessions.length ≤ MAX_CACHED_SESSIONS
    · rw [evictOldSessions_of_le ext stI hgt]
      exact hgt
    · have hlen21 : stI.sessions.length = MAX_CACHED_SESSIONS + 1 := by omega
      obtain ⟨h0, t0, hsort⟩ : ∃ h0 t0, sortByActivity stI.sessions = h0 :: t0 := by
        cases hsl : sortByActivity stI.sessions with
        | nil =>
            have := sortByActivity_eq_nil _ hsl
            rw [this] at hlen21
            simp at hlen21
        | cons a b => exact ⟨a, b, rfl⟩
      obtain ⟨hmem0, -⟩ := sortByActivity_head_min _ h0 t0 hsort
      rw [evictOldSessions_one ext stI h0 t0 hlen21 hsort]
      show (mapDelete (flushSession ext stI h0.1).sessions h0.1).length ≤
        MAX_CACHED_SESSIONS
      rw [flushSession_sessions]
      have hmempair : (h0.1, h0.2) ∈ stI.sessions := by simpa using hmem0
      have hlt := mapDelete_length_lt stI.sessions h0.1 h0.2 hmempair
      omega
  cases hm : mapGet st.sessions c with
  | some s =>
      rw [loadSession_hit ext st c s hm]
      exact h
  | none =>
      have hlenset : ∀ v : Session,
          (mapSet st.sessions c v).length ≤ MAX_CACHED_SESSIONS + 1 := by
        intro v
        rw [mapSet_length_of_get_none _ _ _ hm]
        omega
      cases hd : mapGet st.disk (getSessionPath ext c) with
      | none =>
          rw [loadSession_miss_nofile ext st c hm hd]
          exact key _ (hlenset _)
      | some data =>
          cases hp : ext.parse data with
          | none =>
              rw [loadSession_miss_corrupt ext st c data hm hd hp]
              exact key _ (hlenset _)
          | some s =>
              rw [loadSession_miss_parsed ext st c data s hm hd hp]
              exact key _ (hlenset _)

/-! ## Theorems for cache eviction (claim C4) -/

/-- C4: the cache is bounded at 20 after a load completes.  Loading a 21st
distinct conversation (fresh, with no backing file) into a full cache of 20
entries whose strictly least-recently-active entry is `(mid, msess)` evicts
exactly that entry: the cache returns to 20 entries, contains the new
conversation and all other entries unchanged, and — if a debounced write
was pending for the evicted entry — its serialized session is written to
its path before the cache entry is dropped; no timer for it remains. -/
theorem cacheEviction_spec (ext : SessionExt) (st : SessionStore)
    (c mid : String) (msess : Session)
    (hnd : (st.sessions.map Prod.fst).Nodup)
    (hlen : st.sessions.length = MAX_CACHED_SESSIONS)
    (hmiss : mapGet st.sessions c = none)
    (hdisk : mapGet st.disk (getSessionPath ext c) = none)
    (hm : (mid, msess) ∈ st.sessions)
    (hmin : ∀ p ∈ st.sessions, p.1 ≠ mid → msess.lastActivity < p.2.lastActivity)
    (hnow : msess.lastActivity < ext.now) :
    (∀ (st0 : SessionStore) (c0 : String),
      st0.sessions.length ≤ MAX_CACHED_SESSIONS →
      (loadSession ext st0 c0).2.sessions.length ≤ MAX_CACHED_SESSIONS) ∧
    (loadSession ext st c).2.sessions.length = MAX_CACHED_SESSIONS ∧
    mapGet (loadSession ext st c).2.sessions c = some ⟨[], ext.now, none⟩ ∧
    mapGet (loadSession ext st c).2.sessions mid = none ∧
    (∀ k, k ≠ mid → k ≠ c →
      mapGet (loadSession ext st c).2.sessions k = mapGet st.sessions k) ∧
    ((st.pending.any fun x => x == mid) = true →
      mapGet (loadSession ext st c).2.disk (getSessionPath ext mid) =
        some (ext.stringify msess)) ∧
    (((loadSession ext st c).2.pending.any fun x => x == mid) = false) := by
  refine ⟨fun st0 c0 h0 => loadSession_length_le ext st0 c0 h0, ?_⟩
  rw [loadSession_miss_nofile ext st c hmiss hdisk]
  exact evictStep_min ext
    { st with sessions := mapSet st.sessions c ⟨[], ext.now, none⟩ }
    c mid msess ⟨[], ext.now, none⟩ st.sessions
    (mapSet_of_get_none st.sessions c _ hmiss) hnd hlen hmiss hm hmin hnow

/-- The concrete 20-entry cache used by the eviction witness: conversations
`"c0" .. "c19"` with `lastActivity` `1 .. 20`. -/
def witnessCache : List (String × Session) :=
  (List.range 20).map (fun i => ("c" ++ toString i, ⟨[], i + 1, none⟩))

/-- C4 (witness): the eviction theorem applied to a full concrete cache
with a pending write for the least-recently-active entry `"c0"`: after
loading the 21st conversation the cache is back at 20 entries, `"c0"` is
gone, and its serialized session was written to `"sessions/c0.json"`. -/
theorem cacheEviction_spec_witness :
    (loadSession ⟨"sessions", 50, 1000, fun _ => none, fun s => toString s.lastActivity⟩
      ⟨witnessCache, ["c0"], [], 0⟩ "newchat").2.sessions.length = MAX_CACHED_SESSIONS ∧
    mapGet (loadSession ⟨"sessions", 50, 1000, fun _ => none, fun s => toString s.lastActivity⟩
      ⟨witnessCache, ["c0"], [], 0⟩ "newchat").2.sessions "c0" = none ∧
    mapGet (loadSession ⟨"sessions", 50, 1000, fun _ => none, fun s => toString s.lastActivity⟩
      ⟨witnessCache, ["c0"], [], 0⟩ "newchat").2.disk
      (getSessionPath ⟨"sessions", 50, 1000, fun _ => none, fun s => toString s.lastActivity⟩ "c0")
      = some "1" := by
  have h := cacheEviction_spec
    ⟨"sessions", 50, 1000, fun _ => none, fun s => toString s.lastActivity⟩
    ⟨witnessCache, ["c0"], [], 0⟩ "newchat" "c0" ⟨[], 1, none⟩
    (by decide) (by decide) (by decide) rfl (by decide) (by decide) (by decide)
  exact ⟨h.2.1, h.2.2.2.1, h.2.2.2.2.2.1 (by decide)⟩

/-! ## Conversation compression (`compressHistoryIfNeeded` in `session.ts`)

The summarizer LLM call is an oracle `summarize : String → Option String`
receiving the exact prompt string built by the source; `none` models both a
thrown error (caught by the source's `try`/`catch`) and a response whose
first content block is not text (`summary = null`). -/

def COMPRESS_THRESHOLD : Nat := 25

def KEEP_RECENT : Nat := 12

def roleToString : Role → String
  | Role.user => "user"
  | Role.assistant => "assistant"

/-- `toCompress.map(m => role + ": " + content).join("\n")`. -/
def formatForSummary (msgs : List ChatMessage) : String :=
  String.intercalate "\n" (msgs.map (fun m => roleToString m.role ++ ": " ++ m.content))

/-- The `Previous context:` prefix — present exactly when
`session.conversationSummary` is truthy (present and non-empty). -/
def prevContext : Option String → String
  | some prev => if prev == "" then "" else "Previous context: " ++ prev ++ "\n\n"
  | none => ""

/-- The user-message string passed to the summarizer: previous context (if
truthy) followed by the serialized transcript of `messages.slice(0, -12)`. -/
def compressPrompt (s : Session) : String :=
  prevContext s.conversationSummary ++ "Conversation:\n" ++
    formatForSummary (s.messages.take (s.messages.length - KEEP_RECENT))

/-- Result of one `compressHistoryIfNeeded` call: the session afterwards,
the prompt sent to the summarizer (`none` = no call made), and whether a
debounced save was scheduled. -/
structure CompressResult where
  session : Session
  prompt : Option String
  scheduledSave : Bool
deriving DecidableEq

/-- `compressHistoryIfNeeded`: no-op at or below the threshold; otherwise
summarize all but the last 12 messages and, only if the summarizer produced
truthy text, replace the messages by the kept tail and overwrite
`conversationSummary`.  On a failed call or falsy text (`if (summary)`),
the session is left untouched and nothing is scheduled. -/
def compressHistoryIfNeeded (summarize : String → Option String) (s : Session) :
    CompressResult :=
  if s.messages.length ≤ COMPRESS_THRESHOLD then ⟨s, none, false⟩
  else
    match summarize (compressPrompt s) with
    | none => ⟨s, some (compressPrompt s), false⟩
    | some summary =>
        if summary == "" then ⟨s, some (compressPrompt s), false⟩
        else
          ⟨⟨s.messages.drop (s.messages.length - KEEP_RECENT), s.lastActivity,
              some summary⟩,
            some (compressPrompt s), true⟩

theorem compress_noop_below (summarize : String → Option String) (s : Session)
    (h : s.messages.length ≤ COMPRESS_THRESHOLD) :
    compressHistoryIfNeeded summarize s = ⟨s, none, false⟩ := by
  unfold compressHistoryIfNeeded
  rw [if_pos h]

/-! ## Theorems for compression (claims C7, C8) -/

/-- C7: on a 26-message session whose summarizer call succeeds with a
non-empty digest, compression keeps exactly the 12 most recent messages and
installs the non-empty digest as `conversationSummary`; an immediately
repeated call — with ANY summarizer — is a no-op that makes no summarizer
call and changes nothing; and whenever a session with a truthy previous
summary is compressed, the prompt handed to the summarizer carries that
previous summary forward (`Previous context: ...`). -/
theorem compressOnce_spec (s : Session) (summarize : String → Option String)
    (d : String) (hlen : s.messages.length = 26)
    (hsum : summarize (compressPrompt s) = some d) (hd : d ≠ "") :
    (compressHistoryIfNeeded summarize s).session.messages = s.messages.drop 14 ∧
    (compressHistoryIfNeeded summarize s).session.messages.length = 12 ∧
    (compressHistoryIfNeeded summarize s).session.conversationSummary = some d ∧
    (compressHistoryIfNeeded summarize s).prompt = some (compressPrompt s) ∧
    (∀ summarize2 : String → Option String,
      compressHistoryIfNeeded summarize2 (compressHistoryIfNeeded summarize s).session =
        ⟨(compressHistoryIfNeeded summarize s).session, none, false⟩) ∧
    (∀ (s2 : Session) (prev : String),
      s2.conversationSummary = some prev → prev ≠ "" →
      compressPrompt s2 =
        "Previous context: " ++ prev ++ "\n\n" ++ "Conversation:\n" ++
          formatForSummary (s2.messages.take (s2.messages.length - KEEP_RECENT))) := by
  have hres : compressHistoryIfNeeded summarize s =
      ⟨⟨s.messages.drop (s.messages.length - KEEP_RECENT), s.lastActivity, some d⟩,
        some (compressPrompt s), true⟩ := by
    unfold compressHistoryIfNeeded
    rw [if_neg (by rw [hlen]; decide)]
    simp only [hsum]
    rw [if_neg (by simpa using hd)]
  rw [hres]
  have hdrop : s.messages.length - KEEP_RECENT = 14 := by
    rw [hlen]; decide
  refine ⟨by rw [hdrop], ?_, rfl, rfl, ?_, ?_⟩
  · show (s.messages.drop (s.messages.length - KEEP_RECENT)).length = 12
    rw [List.length_drop, hdrop, hlen]
  · intro summarize2
    apply compress_noop_below
    show (s.messages.drop (s.messages.length - KEEP_RECENT)).length ≤ COMPRESS_THRESHOLD
    rw [List.length_drop, hdrop, hlen]
    decide
  · intro s2 prev hprev hne
    unfold compressPrompt prevContext
    rw [hprev]
    simp only [beq_iff_eq]
    rw [if_neg hne]

/-- C8: if the summarizer call fails (throws / yields no text, modelled by
`none`) or returns the empty string (falsy in `if (summary)`), the session
is left completely unchanged, no save is scheduled (so the on-disk record
is untouched), and no exception escapes — the call returns normally with
the original session. -/
theorem compressFailOpen_spec (s : Session) (summarize : String → Option String)
    (hlen : COMPRESS_THRESHOLD < s.messages.length)
    (hfail : summarize (compressPrompt s) = none ∨
      summarize (compressPrompt s) = some "") :
    compressHistoryIfNeeded summarize s = ⟨s, some (compressPrompt s), false⟩ := by
  unfold compressHistoryIfNeeded
  rw [if_neg (Nat.not_le.mpr hlen)]
  rcases hfail with h | h
  · simp only [h]
  · simp only [h]
    rw [if_pos (by decide)]

/-- The concrete 26-message session used by the compression witnesses. -/
def witnessMessages : List ChatMessage :=
  (List.range 26).map (fun i => ⟨Role.user, toString i, i⟩)

/-- C7 (witness): the compression theorem applied to a concrete 26-message
session and a summarizer returning `"digest"`: 12 messages remain and the
summary is installed. -/
theorem compressOnce_spec_witness :
    (compressHistoryIfNeeded (fun _ => some "digest")
      ⟨witnessMessages, 0, none⟩).session.messages.length = 12 ∧
    (compressHistoryIfNeeded (fun _ => some "digest")
      ⟨witnessMessages, 0, none⟩).session.conversationSummary = some "digest" := by
  have h := compressOnce_spec ⟨witnessMessages, 0, none⟩ (fun _ => some "digest")
    "digest" (by decide) rfl (by decide)
  exact ⟨h.2.1, h.2.2.1⟩

/-- C8 (witness): the fail-open theorem applied to the concrete 26-message
session and a summarizer that always fails: the result carries the original
session unchanged and schedules nothing. -/
theorem compressFailOpen_spec_witness :
    compressHistoryIfNeeded (fun _ => none) ⟨witnessMessages, 0, none⟩ =
      ⟨⟨witnessMessages, 0, none⟩,
        some (compressPrompt ⟨witnessMessages, 0, none⟩), false⟩ :=
  compressFailOpen_spec ⟨witnessMessages, 0, none⟩ (fun _ => none)
    (by decide) (Or.inl rfl)

/-! ## Tool-use loop (`chat` in `index.ts`)

The LLM is an oracle `llm : List MessageParam → LlmResponse` (one call per
round, applied to the accumulated transcript), and tool dispatch is an
oracle `exec : ContentBlock → String` (`executeToolCall` always resolves to
a string).  One loop round finds the first `tool_use` block, executes it,
appends the assistant turn and the tool result to the transcript, and
re-sends.  The loop counter is the source's `toolRound < MAX_TOOL_ROUNDS`
bound, modelled as fuel; the returned `Nat` counts executed rounds, each of
which performs exactly one `exec` call and one `llm` call. -/

inductive ContentBlock where
  | text : String → ContentBlock
  | toolUse : String → String → String → ContentBlock
  | toolResult : String → String → ContentBlock
deriving DecidableEq, Repr

structure LlmResponse where
  stopReason : String
  content : List ContentBlock
deriving DecidableEq, Repr

structure MessageParam where
  role : String
  content : List ContentBlock
deriving DecidableEq, Repr

def isToolUseBlock : ContentBlock → Bool
  | ContentBlock.toolUse _ _ _ => true
  | _ => false

/-- `finalResponse.content.find(block => block.type === "tool_use")`. -/
def findToolUse (r : LlmResponse) : Option ContentBlock :=
  r.content.find? isToolUseBlock

def blockId : ContentBlock → String
  | ContentBlock.toolUse i _ _ => i
  | _ => ""

def textOfBlock : ContentBlock → Option String
  | ContentBlock.text t => some t
  | _ => none

/-- `content.filter(b => b.type === "text").map(b => b.text).join("\n")`. -/
def extractText (r : LlmResponse) : String :=
  String.intercalate "\n" (r.content.filterMap textOfBlock)

def MAX_TOOL_ROUNDS : Nat := 15

/-- The `while (stop_reason === "tool_use" && toolRound < MAX_TOOL_ROUNDS)`
loop of `chat`. -/
def toolUseLoop (llm : List MessageParam → LlmResponse)
    (exec : ContentBlock → String) :
    Nat → LlmResponse → List MessageParam → LlmResponse × Nat
  | 0, resp, _ => (resp, 0)
  | fuel + 1, resp, msgs =>
      if resp.stopReason == "tool_use" then
        match findToolUse resp with
        | none => (resp, 0)
        | some tu =>
            let result := exec tu
            let msgs2 := msgs ++
              [⟨"assistant", resp.content⟩,
                ⟨"user", [ContentBlock.toolResult (blockId tu) result]⟩]
            let recResult := toolUseLoop llm exec fuel (llm msgs2) msgs2
            (recResult.1, recResult.2 + 1)
      else (resp, 0)

/-- `pickRandom`: `arr[Math.floor(Math.random() * arr.length)]`; the random
draw is the oracle index `r`, reduced mod the length. -/
def pickRandom (r : Nat) (l : List String) : String :=
  l.getD (r % l.length) ""

def yawnPrefixes : List String := ["*yawn* ", "*stretches* ", "*blinks sleepily* "]

def followUps : List String :=
  ["\n\nCurious - what made you think of that?",
    "\n\nInteresting! Want to tell me more?",
    "\n\nThat\x27s got me thinking... anything else on your mind?"]

/-- `applyMoodModifiers` from `lizard-brain.ts`: `r1`, `r2` are the two
`Math.random()` draws and `i1`, `i2` the two `pickRandom` draws. -/
def applyMoodModifiers (energy curiosity r1 r2 : ℚ) (i1 i2 : Nat)
    (response : String) : String :=
  let modified :=
    if energy < 30 ∧ r1 < 3/10 then pickRandom i1 yawnPrefixes ++ response
    else response
  if 80 < curiosity ∧ r2 < 1/5 ∧ ¬ (modified.contains '?') then
    modified ++ pickRandom i2 followUps
  else modified

/-- The text `chat` returns after the tool phase: mood-modified join of the
text blocks of the final response. -/
def chatAssembleText (llm : List MessageParam → LlmResponse)
    (exec : ContentBlock → String) (resp0 : LlmResponse)
    (msgs0 : List MessageParam) (energy curiosity r1 r2 : ℚ) (i1 i2 : Nat) :
    String :=
  applyMoodModifiers energy curiosity r1 r2 i1 i2
    (extractText (toolUseLoop llm exec MAX_TOOL_ROUNDS resp0 msgs0).1)

theorem toolUseLoop_rounds_le (llm : List MessageParam → LlmResponse)
    (exec : ContentBlock → String) :
    ∀ (fuel : Nat) (resp : LlmResponse) (msgs : List MessageParam),
      (toolUseLoop llm exec fuel resp msgs).2 ≤ fuel := by
  intro fuel
  induction fuel with
  | zero => intro resp msgs; simp [toolUseLoop]
  | succ n ih =>
      intro resp msgs
      unfold toolUseLoop
      by_cases h : (resp.stopReason == "tool_use") = true
      · rw [if_pos h]
        cases hf : findToolUse resp with
        | none => simp
        | some tu =>
            simp only []
            exact Nat.succ_le_succ (ih _ _)
      · rw [if_neg h]
        simp

theorem toolUseLoop_rounds_eq (llm : List MessageParam → LlmResponse)
    (exec : ContentBlock → String)
    (hall : ∀ msgs, ((llm msgs).stopReason == "tool_use") = true ∧
      (findToolUse (llm msgs)).isSome = true) :
    ∀ (fuel : Nat) (resp : LlmResponse) (msgs : List MessageParam),
      (resp.stopReason == "tool_use") = true → (findToolUse resp).isSome = true →
      (toolUseLoop llm exec fuel resp msgs).2 = fuel := by
  intro fuel
  induction fuel with
  | zero => intro resp msgs _ _; rfl
  | succ n ih =>
      intro resp msgs h1 h2
      unfold toolUseLoop
      rw [if_pos h1]
      obtain ⟨tu, htu⟩ := Option.isSome_iff_exists.mp h2
      rw [htu]
      simp only []
      rw [ih _ _ (hall _).1 (hall _).2]

/-! ## Theorems for the tool-use round cap (claim C2) -/

/-- C2 (counterexample): with an LLM that answers every transcript with
`stop_reason: "tool_use"` and no text block, the loop stops at the cap and
the orchestrator's returned text is the EMPTY string — the claim's
"the returned text is non-empty" is false. -/
theorem toolLoop_text_empty_cex :
    (toolUseLoop
      (fun _ => ⟨"tool_use", [ContentBlock.toolUse "t1" "web_search" "q"]⟩)
      (fun _ => "ok") MAX_TOOL_ROUNDS
      ⟨"tool_use", [ContentBlock.toolUse "t1" "web_search" "q"]⟩ []).2 =
        MAX_TOOL_ROUNDS ∧
    chatAssembleText
      (fun _ => ⟨"tool_use", [ContentBlock.toolUse "t1" "web_search" "q"]⟩)
      (fun _ => "ok")
      ⟨"tool_use", [ContentBlock.toolUse "t1" "web_search" "q"]⟩ []
      100 50 (1/2) (1/2) 0 0 = "" := by
  constructor
  · rfl
  · rfl

/-- C2 (amended): the tool-use loop terminates after at most 15 rounds
(each round executing exactly one tool call and one re-send), and even if
every response requests another tool use it stops exactly at the cap and
the orchestrator returns (rather than raising) the mood-modified text
assembled from the last response — which may, however, be empty when that
response carries no text block. -/
theorem toolLoop_cap_spec :
    (∀ (llm : List MessageParam → LlmResponse) (exec : ContentBlock → String)
        (resp0 : LlmResponse) (msgs0 : List MessageParam),
      (toolUseLoop llm exec MAX_TOOL_ROUNDS resp0 msgs0).2 ≤ MAX_TOOL_ROUNDS) ∧
    (∀ (llm : List MessageParam → LlmResponse) (exec : ContentBlock → String)
        (resp0 : LlmResponse) (msgs0 : List MessageParam)
        (energy curiosity r1 r2 : ℚ) (i1 i2 : Nat),
      (∀ msgs, ((llm msgs).stopReason == "tool_use") = true ∧
        (findToolUse (llm msgs)).isSome = true) →
      (resp0.stopReason == "tool_use") = true →
      (findToolUse resp0).isSome = true →
      (toolUseLoop llm exec MAX_TOOL_ROUNDS resp0 msgs0).2 = MAX_TOOL_ROUNDS ∧
      chatAssembleText llm exec resp0 msgs0 energy curiosity r1 r2 i1 i2 =
        applyMoodModifiers energy curiosity r1 r2 i1 i2
          (extractText (toolUseLoop llm exec MAX_TOOL_ROUNDS resp0 msgs0).1)) := by
  refine ⟨?_, ?_⟩
  · intro llm exec resp0 msgs0
    exact toolUseLoop_rounds_le llm exec MAX_TOOL_ROUNDS resp0 msgs0
  · intro llm exec resp0 msgs0 energy curiosity r1 r2 i1 i2 hall h1 h2
    exact ⟨toolUseLoop_rounds_eq llm exec hall MAX_TOOL_ROUNDS resp0 msgs0 h1 h2,
      rfl⟩

/-- C2 (witness): the cap theorem applied to the concrete always-tool-use
LLM: the bound holds and the cap is hit exactly. -/
theorem toolLoop_cap_spec_witness :
    (toolUseLoop
      (fun _ => ⟨"tool_use", [ContentBlock.toolUse "t1" "web_search" "q"]⟩)
      (fun _ => "ok") MAX_TOOL_ROUNDS
      ⟨"tool_use", [ContentBlock.toolUse "t1" "web_search" "q"]⟩ []).2 ≤
        MAX_TOOL_ROUNDS ∧
    (toolUseLoop
      (fun _ => ⟨"tool_use", [ContentBlock.toolUse "t1" "web_search" "q"]⟩)
      (fun _ => "ok") MAX_TOOL_ROUNDS
      ⟨"tool_use", [ContentBlock.toolUse "t1" "web_search" "q"]⟩ []).2 =
        MAX_TOOL_ROUNDS :=
  ⟨toolLoop_cap_spec.1 _ _ _ _,
    (toolLoop_cap_spec.2
      (fun _ => ⟨"tool_use", [ContentBlock.toolUse "t1" "web_search" "q"]⟩)
      (fun _ => "ok")
      ⟨"tool_use", [ContentBlock.toolUse "t1" "web_search" "q"]⟩ []
      100 50 (1/2) (1/2) 0 0 (fun _ => ⟨rfl, rfl⟩) rfl rfl).1⟩

/-! ## Quick-response matcher (`lizard-brain.ts`)

The regexes of `quickPatterns` are translated into decidable matchers over
the lower-cased character list (all the source regexes carry the `i` flag).
A token sequence `List Tok` stands for the regex body; `searchToks` is the
unanchored `String.prototype.match` search (a match anywhere succeeds), and
an anchored `^...$` regex checks a residue predicate at the end.  Regex
alternation and optional groups (`'?`, `s?`, `(is\s*it)?` …) are expanded
into explicit alternative lists; since a JavaScript regex test succeeds
exactly when SOME alternative matches at SOME position, the existential
any-of-alternatives / any-position semantics used here is equivalent to the
engine's backtracking for these patterns. -/

def isWsChar (c : Char) : Bool :=
  c == ' ' || c == '\t' || c == '\n' || c == '\r'

/-- The `[\s!.,?]` trailing class of the greeting / thanks regexes. -/
def isJunkChar (c : Char) : Bool :=
  isWsChar c || c == '!' || c == '.' || c == ',' || c == '?'

def listStarts : List Char → List Char → Bool
  | [], _ => true
  | _ :: _, [] => false
  | a :: as, c :: cs => a == c && listStarts as cs

/-- One regex token: a literal alternative set, `\s*`, `\s+`, `\d+`, `\d`. -/
inductive Tok where
  | lit : List String → Tok
  | ws0 : Tok
  | ws1 : Tok
  | digits1 : Tok
  | digit1 : Tok

/-- Match a token sequence at the start of `cs`, then check the residue
with `k`.  Greedy whitespace/digit runs are deterministic here because no
following literal starts with a whitespace or digit character. -/
def matchToks (k : List Char → Bool) : List Tok → List Char → Bool
  | [], cs => k cs
  | Tok.lit alts :: ts, cs =>
      alts.any (fun a => listStarts a.data cs && matchToks k ts (cs.drop a.length))
  | Tok.ws0 :: ts, cs => matchToks k ts (cs.dropWhile isWsChar)
  | Tok.ws1 :: ts, cs =>
      (match cs with
        | c :: _ => isWsChar c
        | [] => false) && matchToks k ts (cs.dropWhile isWsChar)
  | Tok.digits1 :: ts, cs =>
      (match cs with
        | c :: _ => c.isDigit
        | [] => false) && matchToks k ts (cs.dropWhile Char.isDigit)
  | Tok.digit1 :: ts, cs =>
      match cs with
      | c :: rest => c.isDigit && matchToks k ts rest
      | [] => false

def lowerChars (s : String) : List Char :=
  s.data.map Char.toLower

/-- Unanchored search: the token sequence matches at some position. -/
def searchToks (toks : List Tok) (t : String) : Bool :=
  (lowerChars t).tails.any (fun cs => matchToks (fun _ => true) toks cs)

/-- Anchored match of the whole (lower-cased) input, with a residue test. -/
def anchorToks (toks : List Tok) (residue : List Char → Bool) (t : String) :
    Bool :=
  matchToks residue toks (lowerChars t)

/-- `/^(hi|hello|hey|yo|sup|hiya|howdy)[\s!.,?]*$/i`. -/
def matchGreeting (t : String) : Bool :=
  anchorToks [Tok.lit ["hi", "hello", "hey", "yo", "sup", "hiya", "howdy"]]
    (fun rest => rest.all isJunkChar) t

/-- `/^(thanks|thank\s*you|thx|ty|cheers)[\s!.,?]*$/i`. -/
def matchThanks (t : String) : Bool :=
  anchorToks [Tok.lit ["thanks", "thx", "ty", "cheers"]]
    (fun rest => rest.all isJunkChar) t ||
  anchorToks [Tok.lit ["thank"], Tok.ws0, Tok.lit ["you"]]
    (fun rest => rest.all isJunkChar) t

/-- `/what\s*(time|hour)\s*(is\s*it)?/i` and `/^time\??$/i`. -/
def matchTimeQ (t : String) : Bool :=
  searchToks [Tok.lit ["what"], Tok.ws0, Tok.lit ["time", "hour"]] t ||
  anchorToks [Tok.lit ["time?", "time"]] (fun rest => rest.isEmpty) t

/-- `/what\s*(day|date)\s*(is\s*it)?/i`, `/^date\??$/i`, `/today'?s?\s*date/i`. -/
def matchDateQ (t : String) : Bool :=
  searchToks [Tok.lit ["what"], Tok.ws0, Tok.lit ["day", "date"]] t ||
  anchorToks [Tok.lit ["date?", "date"]] (fun rest => rest.isEmpty) t ||
  searchToks [Tok.lit ["today\x27s", "todays", "today\x27", "today"], Tok.ws0,
    Tok.lit ["date"]] t

/-- `/how\s*(are|r)\s*(you|u)/i`, `/how'?s?\s*(it\s*going|things)/i`,
`/you\s*(ok|okay|good|alright)/i`. -/
def matchHowAreYou (t : String) : Bool :=
  searchToks [Tok.lit ["how"], Tok.ws0, Tok.lit ["are", "r"], Tok.ws0,
    Tok.lit ["you", "u"]] t ||
  searchToks [Tok.lit ["how\x27s", "how\x27", "hows", "how"], Tok.ws0,
    Tok.lit ["it"], Tok.ws0, Tok.lit ["going"]] t ||
  searchToks [Tok.lit ["how\x27s", "how\x27", "hows", "how"], Tok.ws0,
    Tok.lit ["things"]] t ||
  searchToks [Tok.lit ["you"], Tok.ws0, Tok.lit ["ok", "okay", "good", "alright"]] t

/-- `/what\s*did\s*(you|u)\s*say/i`, `/repeat\s*that/i`,
`/say\s*that\s*again/i`, `/^huh\??$/i`. -/
def matchRepeat (t : String) : Bool :=
  searchToks [Tok.lit ["what"], Tok.ws0, Tok.lit ["did"], Tok.ws0,
    Tok.lit ["you", "u"], Tok.ws0, Tok.lit ["say"]] t ||
  searchToks [Tok.lit ["repeat"], Tok.ws0, Tok.lit ["that"]] t ||
  searchToks [Tok.lit ["say"], Tok.ws0, Tok.lit ["that"], Tok.ws0,
    Tok.lit ["again"]] t ||
  anchorToks [Tok.lit ["huh?", "huh"]] (fun rest => rest.isEmpty) t

/-- `/remind\s+me\s+in\s+\d+/i`. -/
def matchRemindIn (t : String) : Bool :=
  searchToks [Tok.lit ["remind"], Tok.ws1, Tok.lit ["me"], Tok.ws1,
    Tok.lit ["in"], Tok.ws1, Tok.digits1] t

/-- `/remind\s+me\s+at\s+\d/i`. -/
def matchRemindAt (t : String) : Bool :=
  searchToks [Tok.lit ["remind"], Tok.ws1, Tok.lit ["me"], Tok.ws1,
    Tok.lit ["at"], Tok.ws1, Tok.digit1] t

/-- `/remind\s+me\s+/i` (the catch-all helper). -/
def matchRemindAny (t : String) : Bool :=
  searchToks [Tok.lit ["remind"], Tok.ws1, Tok.lit ["me"], Tok.ws1] t

def GREETING_RESPONSES : List String :=
  ["Hey there! 🦞", "Hi! What\x27s up?", "Hello! How can I help?", "Hey! 👋"]

def THANKS_RESPONSES : List String :=
  ["You\x27re welcome!", "No problem! 🦞", "Happy to help!", "Anytime!"]

def HOW_ARE_YOU_lowEnergy : List String :=
  ["*yawn* A bit tired, but here for you!",
    "Running on low battery today... but still kicking! 🦞",
    "Feeling a bit sleepy, but ready to help."]

def HOW_ARE_YOU_highStress : List String :=
  ["Bit overwhelmed right now, but managing!",
    "Been busy! Taking a breath... 🦞",
    "A lot going on, but I\x27m here."]

def HOW_ARE_YOU_highCuriosity : List String :=
  ["Feeling curious and ready to explore! What\x27s on your mind?",
    "Great! Been thinking about interesting stuff. What about you?",
    "Excited to chat! 🦞 What\x27s up?"]

def HOW_ARE_YOU_normal : List String :=
  ["Doing well! How can I help? 🦞",
    "Good! What\x27s on your mind?",
    "All good here! What can I do for you?"]

def remindHelpText : String :=
  "I can help with reminders! Try:\n• \"remind me in 30 min to call mom\"\n• \"remind me at 3pm to check oven\"\n• /remind daily 08:00 Write journal\n• /remind weekly Mon 09:00 Standup\n• /remind list — see pending reminders"

def budgetExhaustedMsg : String :=
  "🔋 I\x27ve run out of thinking power for today. My brain resets at midnight! Simple questions I can still handle."

def budgetLowMsg : String :=
  "🔋 Running really low on thinking power... I can only handle simple requests right now."

def highStressMsg : String :=
  "🧘 Taking a breath... I\x27ve been working hard. Give me a moment and try again."

/-- The mood fields and token counters of `lizardBrain` read by
`tryQuickResponse`. -/
structure LizardState where
  energy : ℚ
  stress : ℚ
  curiosity : ℚ
  used : ℚ
  budget : ℚ

/-- Ambient inputs of one `tryQuickResponse` call: the `Math.random()`
draw (as a `pickRandom` index), the clock-dependent time/date reply texts,
`lastResponses.get(chatId)`, and the outcomes of the two reminder
responders (which parse the text and mutate the reminder registry; `none`
models a parse failure returning `null`). -/
structure QuickEnv where
  rand : Nat
  timeText : String
  dateText : String
  lastResponse : Option String
  remindInText : Option String
  remindAtText : Option String

/-- `getMoodAwareHowAreYou`. -/
def getMoodAwareHowAreYou (st : LizardState) (r : Nat) : String :=
  if st.energy < 30 then pickRandom r HOW_ARE_YOU_lowEnergy
  else if 50 < st.stress then pickRandom r HOW_ARE_YOU_highStress
  else if 80 < st.curiosity then pickRandom r HOW_ARE_YOU_highCuriosity
  else pickRandom r HOW_ARE_YOU_normal

/-- One entry of the `quickPatterns` table: the union of its regexes as a
matcher, and the response its responder would produce for this call
(`none` = the responder returned `null`, falling through). -/
structure QuickPattern where
  hits : String → Bool
  respond : Option String

/-- The ordered `quickPatterns` table. -/
def quickPatterns (st : LizardState) (env : QuickEnv) : List QuickPattern :=
  [⟨matchGreeting, some (pickRandom env.rand GREETING_RESPONSES)⟩,
    ⟨matchThanks, some (pickRandom env.rand THANKS_RESPONSES)⟩,
    ⟨matchTimeQ, some env.timeText⟩,
    ⟨matchDateQ, some env.dateText⟩,
    ⟨matchHowAreYou, some (getMoodAwareHowAreYou st env.rand)⟩,
    ⟨matchRepeat, some (match env.lastResponse with
      | some last => "I said: \"" ++ last ++ "\""
      | none => "I haven\x27t said anything yet in this conversation!")⟩,
    ⟨matchRemindIn, env.remindInText⟩,
    ⟨matchRemindAt, env.remindAtText⟩,
    ⟨matchRemindAny, some remindHelpText⟩]

/-- The pattern loop: first entry whose regex matches AND whose responder
returns non-null wins; a null response falls through to later entries. -/
def runQuickPatterns (text : String) : List QuickPattern → Option String
  | [] => none
  | p :: rest =>
      if p.hits text then
        match p.respond with
        | some r => some r
        | none => runQuickPatterns text rest
      else runQuickPatterns text rest

/-- `checkSpecialStates`: budget exhausted (≥ 100%), budget low (≥ 95%),
or high stress (≥ 80, with the −10 cool-down side effect). -/
def checkSpecialStates (st : LizardState) : Option String × LizardState :=
  if 1 ≤ st.used / st.budget then (some budgetExhaustedMsg, st)
  else if 95/100 ≤ st.used / st.budget then (some budgetLowMsg, st)
  else if 80 ≤ st.stress then
    (some highStressMsg, { st with stress := st.stress - 10 })
  else (none, st)

/-- `tryQuickResponse`.  On an exhausted budget the table is still tried
(and the exhausted message returned if nothing matches, with no energy
cost); the high-stress check re-reads the already-cooled-down stress; in
the ordinary path a successful pattern costs one energy point. -/
def tryQuickResponse (st : LizardState) (env : QuickEnv) (text : String) :
    Option String × LizardState :=
  match checkSpecialStates st with
  | (none, st1) =>
      match runQuickPatterns text (quickPatterns st1 env) with
      | some r => (some r, { st1 with energy := max 0 (st1.energy - 1) })
      | none => (none, st1)
  | (some msg, st1) =>
      if 1 ≤ st1.used / st1.budget then
        match runQuickPatterns text (quickPatterns st1 env) with
        | some r => (some r, st1)
        | none => (some msg, st1)
      else if 80 ≤ st1.stress then (some msg, st1)
      else
        match runQuickPatterns text (quickPatterns st1 env) with
        | some r => (some r, { st1 with energy := max 0 (st1.energy - 1) })
        | none => (none, st1)

theorem pickRandom_mem (r : Nat) (l : List String) (h : l ≠ []) :
    pickRandom r l ∈ l := by
  unfold pickRandom
  have hlt : r % l.length < l.length := Nat.mod_lt _ (List.length_pos.mpr h)
  rw [List.getD_eq_getElem l "" hlt]
  exact List.getElem_mem hlt

/-- On the literal input `"hi"` the pattern loop fires the greeting entry
(first in the table) for every state and environment. -/
theorem runQuickPatterns_hi (st : LizardState) (env : QuickEnv) :
    runQuickPatterns "hi" (quickPatterns st env) =
      some (pickRandom env.rand GREETING_RESPONSES) := by
  have hmatch : matchGreeting "hi" = true := by decide
  simp only [quickPatterns, runQuickPatterns, hmatch, if_true]

/-! ## Theorems for the quick responder on `"hi"` (claim C9) -/

/-- C9 (counterexample): with stress 90 (inside the mood range `[0,100]`)
and zero token usage, `tryQuickResponse` on the literal `"hi"` returns the
high-stress cool-down message, NOT a greeting-table entry: the special
state intercepts before the table is consulted (the cool-down lowers
stress to 80, which still satisfies the `stress >= 80` re-check). -/
theorem quickResponse_hi_greeting_cex :
    (tryQuickResponse ⟨100, 90, 50, 0, 100⟩ ⟨0, "t", "d", none, none, none⟩
      "hi").1 = some highStressMsg ∧
    highStressMsg ∉ GREETING_RESPONSES := by
  constructor
  · have hcss : checkSpecialStates ⟨100, 90, 50, 0, 100⟩ =
        (some highStressMsg, ⟨100, 80, 50, 0, 100⟩) := by
      unfold checkSpecialStates
      rw [if_neg (by norm_num), if_neg (by norm_num), if_pos (by norm_num)]
      norm_num
    unfold tryQuickResponse
    simp only [hcss]
    rw [if_neg (by norm_num), if_pos (by norm_num)]
  · decide

/-- C9 (amended): `tryQuickResponse` on `"hi"` is never null for any mood
state and usage ratio — so an LLM call is never made for that input — and
it is a greeting-table entry EXCEPT when a special state intercepts:
usage < 0.95 with stress ≥ 90 yields the high-stress cool-down message,
and 0.95 ≤ usage < 1 with stress ≥ 80 yields the low-budget message; in
every other case (including usage ≥ 1) a greeting-table entry is
returned. -/
theorem quickResponse_hi_spec (st : LizardState) (env : QuickEnv) :
    ∃ r, (tryQuickResponse st env "hi").1 = some r ∧
      (st.used / st.budget < 95/100 → 90 ≤ st.stress → r = highStressMsg) ∧
      (95/100 ≤ st.used / st.budget → st.used / st.budget < 1 → 80 ≤ st.stress →
        r = budgetLowMsg) ∧
      ((st.used / st.budget < 95/100 ∧ st.stress < 90) ∨
        (95/100 ≤ st.used / st.budget ∧ st.used / st.budget < 1 ∧ st.stress < 80) ∨
        1 ≤ st.used / st.budget → r ∈ GREETING_RESPONSES) := by
  have hmem : pickRandom env.rand GREETING_RESPONSES ∈ GREETING_RESPONSES :=
    pickRandom_mem env.rand GREETING_RESPONSES (by decide)
  by_cases h1 : 1 ≤ st.used / st.budget
  · have hcss : checkSpecialStates st = (some budgetExhaustedMsg, st) := by
      unfold checkSpecialStates
      rw [if_pos h1]
    refine ⟨pickRandom env.rand GREETING_RESPONSES, ?_, ?_, ?_, fun _ => hmem⟩
    · unfold tryQuickResponse
      simp only [hcss]
      rw [if_pos h1, runQuickPatterns_hi st env]
    · intro hlt _
      linarith
    · intro _ hlt _
      linarith
  · by_cases h2 : 95/100 ≤ st.used / st.budget
    · have hcss : checkSpecialStates st = (some budgetLowMsg, st) := by
        unfold checkSpecialStates
        rw [if_neg h1, if_pos h2]
      by_cases h3 : 80 ≤ st.stress
      · refine ⟨budgetLowMsg, ?_, ?_, fun _ _ _ => rfl, ?_⟩
        · unfold tryQuickResponse
          simp only [hcss]
          rw [if_neg h1, if_pos h3]
        · intro hlt _
          linarith
        · rintro (⟨ha, -⟩ | ⟨-, -, hc⟩ | hc)
          · linarith
          · linarith
          · exact absurd hc h1
      · refine ⟨pickRandom env.rand GREETING_RESPONSES, ?_, ?_, ?_, fun _ => hmem⟩
        · unfold tryQuickResponse
          simp only [hcss]
          rw [if_neg h1, if_neg h3, runQuickPatterns_hi st env]
        · intro hlt _
          linarith
        · intro _ _ hge
          exact absurd hge h3
    · push_neg at h2
      by_cases h3 : 80 ≤ st.stress
      · have hcss : checkSpecialStates st =
            (some highStressMsg, { st with stress := st.stress - 10 }) := by
          unfold checkSpecialStates
          rw [if_neg h1, if_neg (not_le.mpr h2), if_pos h3]
        by_cases h4 : 90 ≤ st.stress
        · refine ⟨highStressMsg, ?_, fun _ _ => rfl, ?_, ?_⟩
          · unfold tryQuickResponse
            simp only [hcss]
            rw [if_neg h1, if_pos (show (80 : ℚ) ≤ st.stress - 10 by linarith)]
          · intro hge _ _
            linarith
          · rintro (⟨-, h90⟩ | ⟨hge, -, -⟩ | hge)
            · linarith
            · linarith
            · exact absurd hge h1
        · push_neg at h4
          refine ⟨pickRandom env.rand GREETING_RESPONSES, ?_, ?_, ?_, fun _ => hmem⟩
          · unfold tryQuickResponse
            simp only [hcss]
            rw [if_neg h1,
              if_neg (show ¬ ((80 : ℚ) ≤ st.stress - 10) by push_neg; linarith),
              runQuickPatterns_hi _ env]
          · intro _ h90
            linarith
          · intro hge _ _
            linarith
      · have hcss : checkSpecialStates st = (none, st) := by
          unfold checkSpecialStates
          rw [if_neg h1, if_neg (not_le.mpr h2), if_neg h3]
        refine ⟨pickRandom env.rand GREETING_RESPONSES, ?_, ?_, ?_, fun _ => hmem⟩
        · unfold tryQuickResponse
          simp only [hcss]
          rw [runQuickPatterns_hi st env]
        · intro _ h90
          push_neg at h3
          linarith
        · intro hge _ _
          linarith

/-- C9 (witness): the amended theorem at a relaxed concrete state (full
energy, zero stress, zero usage): the reply to `"hi"` is some greeting
entry. -/
theorem quickResponse_hi_spec_witness :
    ∃ r, (tryQuickResponse ⟨100, 0, 50, 0, 100⟩ ⟨2, "t", "d", none, none, none⟩
        "hi").1 = some r ∧ r ∈ GREETING_RESPONSES := by
  obtain ⟨r, hr, -, -, hmem⟩ :=
    quickResponse_hi_spec ⟨100, 0, 50, 0, 100⟩ ⟨2, "t", "d", none, none, none⟩
  exact ⟨r, hr, hmem (Or.inl ⟨by norm_num, by norm_num⟩)⟩

/-! ## Long-term memory and the `remember_fact` tool
(`memory.ts` / `executeToolCall` in `tools.ts`)

`loadMemory`/`saveMemory` are plain JSON round-trips; the tool handler's
effect on one conversation's memory record is the pure function
`rememberFact` below.  The source's regexes (word-boundary instruction
filter, anchored self-reference filter, meta-commentary filter) are
translated to scanners over the lower-cased character list. -/

structure UserMemory where
  facts : List String
  summary : Option String
  summaryUpTo : Nat
  lastUpdated : Nat
deriving DecidableEq, Repr

/-- JavaScript `\w`: `[A-Za-z0-9_]`. -/
def isWordChar (c : Char) : Bool :=
  c.isAlpha || c.isDigit || c == '_'

/-- `String.prototype.trim()` (ASCII whitespace model). -/
def jsTrim (s : String) : String :=
  ⟨((s.data.dropWhile isWsChar).reverse.dropWhile isWsChar).reverse⟩

/-- `String.prototype.toLowerCase()` (ASCII model). -/
def jsToLower (s : String) : String :=
  ⟨s.data.map Char.toLower⟩

/-- A trailing `\b`: end of input or a non-word character. -/
def wordBoundaryAfter : List Char → Bool
  | [] => true
  | c :: _ => !(isWordChar c)

/-- Try each alternative (in regex alternation order) at the current
position, requiring the trailing word boundary; the leading boundary is
checked by the caller. -/
def tryWordAlts (alts : List String) (cs : List Char) : Option Nat :=
  alts.findSome? (fun a =>
    if listStarts a.data cs && wordBoundaryAfter (cs.drop a.length) then
      some a.length
    else none)

/-- Leftmost `\b(alt1|alt2|...)\b` match over the character list: returns
the position and length of the first match, scanning left to right with
the previous-character word flag for the leading boundary. -/
def findWordMatch (alts : List String) :
    List Char → Bool → Nat → Option (Nat × Nat)
  | [], _, _ => none
  | c :: rest, prevW, pos =>
      match (if prevW then none else tryWordAlts alts (c :: rest)) with
      | some len => some (pos, len)
      | none => findWordMatch alts rest (isWordChar c) (pos + 1)

/-- The alternatives of `INSTRUCTION_PATTERNS`, in source order. -/
def INSTRUCTION_ALTS : List String :=
  ["ignore", "override", "forget", "disregard", "bypass", "system", "prompt",
    "instruction", "you are now", "act as", "pretend", "roleplay", "jailbreak"]

/-- The expanded alternatives of `SELF_REFERENTIAL_PATTERNS` (a `^`-anchored
case-insensitive alternation; optional groups expanded). -/
def SELF_REF_STARTS : List String :=
  ["i apologize", "i do not", "i am ai", "i am an ai", "i am simply ai",
    "i am artificial", "i am an artificial", "i should not have", "as an ai",
    "as a conversational ai", "i\x27m afraid", "i cannot", "i don\x27t actually",
    "my previous responses", "i am software", "i am simply"]

/-- The alternatives of the meta-commentary filter in `isValidUserFact`. -/
def META_ALTS : List String :=
  ["as an ai", "ai assistant", "language model", "created by anthropic",
    "conversational ai"]

/-- `sanitizeFact`: trim, cap at 200 characters, and replace the first
`INSTRUCTION_PATTERNS` match (if any) by `"***"`. -/
def sanitizeFact (fact : String) : String :=
  match findWordMatch INSTRUCTION_ALTS
      ((⟨(jsTrim fact).data.take 200⟩ : String).data.map Char.toLower) false 0 with
  | some (pos, len) =>
      ⟨((jsTrim fact).data.take 200).take pos ++ "***".data ++
        ((jsTrim fact).data.take 200).drop (pos + len)⟩
  | none => ⟨(jsTrim fact).data.take 200⟩

/-- `isValidUserFact`: at least 3 trimmed characters, not self-referential,
no meta-commentary about the bot. -/
def isValidUserFact (fact : String) : Bool :=
  if (jsTrim fact).length < 3 then false
  else if SELF_REF_STARTS.any
      (fun a => listStarts a.data ((jsTrim fact).data.map Char.toLower)) then false
  else if (findWordMatch META_ALTS ((jsTrim fact).data.map Char.toLower)
      false 0).isSome then false
  else true

/-- Result of the `remember_fact` tool call on one conversation's memory:
the memory afterwards, the textual tool result, and whether `saveMemory`
was called. -/
structure ToolCallOutcome where
  memory : UserMemory
  reply : String
  saved : Bool
deriving DecidableEq, Repr

/-- The `remember_fact` arm of `executeToolCall`: reject empty/invalid
facts, skip case-insensitive duplicates of the sanitized fact with an
"Already remembered" reply, otherwise append and cap the list at the 20
most recent facts (`[...facts, clean].slice(-20)`). -/
def rememberFact (now : Nat) (mem : UserMemory) (fact : String) :
    ToolCallOutcome :=
  if (jsTrim fact).length = 0 then ⟨mem, "No fact provided.", false⟩
  else if !(isValidUserFact fact) then
    ⟨mem,
      "That doesn\x27t look like a valid user fact. Only store facts about the user.",
      false⟩
  else if mem.facts.any (fun f => jsToLower f == jsToLower (sanitizeFact fact)) then
    ⟨mem, "Already remembered: \"" ++ sanitizeFact fact ++ "\"", false⟩
  else
    ⟨⟨jsLastSlice (mem.facts ++ [sanitizeFact fact]) 20, mem.summary,
        mem.summaryUpTo, now⟩,
      "Remembered: \"" ++ sanitizeFact fact ++ "\"", true⟩

theorem jsLastSlice_length_le (l : List α) (n : Nat) (hn : n ≠ 0) :
    (jsLastSlice l n).length ≤ n := by
  unfold jsLastSlice
  rw [if_neg hn, List.length_drop]
  omega

/-! ## Theorems for the memory invariant (claim C10) -/

/-- C10: executing `remember_fact` preserves the 20-fact bound (in the
append branch the `slice(-20)` cap even establishes it outright), and
storing a fact already present — compared case-insensitively AFTER
sanitization — leaves the memory record exactly unchanged, performs no
save, and answers with the "Already remembered" reply instead of appending
a duplicate. -/
theorem rememberFact_spec (now : Nat) (mem : UserMemory) (fact : String) :
    (mem.facts.length ≤ 20 → (rememberFact now mem fact).memory.facts.length ≤ 20) ∧
    (∀ f ∈ mem.facts, jsToLower f = jsToLower (sanitizeFact fact) →
      (jsTrim fact).length ≠ 0 → isValidUserFact fact = true →
      (rememberFact now mem fact).memory = mem ∧
      (rememberFact now mem fact).reply =
        "Already remembered: \"" ++ sanitizeFact fact ++ "\"" ∧
      (rememberFact now mem fact).saved = false) := by
  constructor
  · intro hle
    unfold rememberFact
    split_ifs with h1 h2 h3
    · exact hle
    · exact hle
    · exact hle
    · exact jsLastSlice_length_le _ 20 (by decide)
  · intro f hf heq hne hvalid
    have hany : (mem.facts.any fun g => jsToLower g == jsToLower (sanitizeFact fact)) = true :=
      List.any_eq_true.mpr ⟨f, hf, beq_iff_eq.mpr heq⟩
    unfold rememberFact
    rw [if_neg hne, if_neg (by simp [hvalid]), if_pos hany]
    exact ⟨rfl, rfl, rfl⟩

/-- C10 (witness): the theorem applied to a memory holding `"Likes tea"`
and the incoming fact `"likes TEA"`: the sanitized fact collides
case-insensitively, so the memory is unchanged, nothing is saved, and the
reply is the "Already remembered" message. -/
theorem rememberFact_spec_witness :
    (rememberFact 5 ⟨["Likes tea"], none, 0, 0⟩ "likes TEA").memory =
      ⟨["Likes tea"], none, 0, 0⟩ ∧
    (rememberFact 5 ⟨["Likes tea"], none, 0, 0⟩ "likes TEA").reply =
      "Already remembered: \"likes TEA\"" ∧
    (rememberFact 5 ⟨["Likes tea"], none, 0, 0⟩ "likes TEA").saved = false ∧
    (rememberFact 5 ⟨["Likes tea"], none, 0, 0⟩ "likes TEA").memory.facts.length ≤ 20 := by
  have h := rememberFact_spec 5 ⟨["Likes tea"], none, 0, 0⟩ "likes TEA"
  have hclean : sanitizeFact "likes TEA" = "likes TEA" := by decide
  obtain ⟨hmem, hreply, hsaved⟩ := h.2 "Likes tea" (by decide)
    (by rw [hclean]; decide) (by decide) (by decide)
  refine ⟨hmem, ?_, hsaved, h.1 (by decide)⟩
  rw [hreply, hclean]
  decide
